import Mathlib

/-!
Shallow embedding of the json_stream crate (src/parse.rs and src/emit.rs).

Bytes are modelled as Nat (values 0..255).  The byte source is a List Nat
consumed from the front; Peekable peek is List.head?, next is uncons.
The parser session (Rust Parser) is a PState record: the remaining input
plus the deferred-skip queue (a Vec pushed at the back and drained from
the front, exactly as std::mem::take + a for loop does in do_skips).

Rust panics (panic!, assert!, assert_eq!, unwrap on Err) are modelled by
the Out.panicked outcome; loops whose termination Lean cannot see get a
fuel argument, with Out.nofuel as the fuel-exhaustion artifact.  A char
is modelled by its Unicode scalar value as a Nat.  A binary64 value is
modelled by its literal text (the exact byte list handed to f64 parsing),
with f64_parse_ok a recognizer for the std float grammar restricted to
the bytes the number accumulator can produce.
-/

/-- Bytes of an ASCII string literal, used to write concrete inputs. -/
def strBytes (s : String) : List Nat :=
  s.data.map Char.toNat

/-- u8::is_ascii_whitespace: space, tab, line feed, form feed, carriage return. -/
def isWsByte (b : Nat) : Bool :=
  b = 32 || b = 9 || b = 10 || b = 12 || b = 13

/-- ASCII digit 0..9. -/
def isDigitByte (b : Nat) : Bool :=
  48 ≤ b && b ≤ 57

/-- u8::is_ascii_alphabetic. -/
def isAlphaByte (b : Nat) : Bool :=
  (65 ≤ b && b ≤ 90) || (97 ≤ b && b ≤ 122)

/-- The SyntaxError enum of src/parse.rs. -/
inductive SyntaxError where
  | invalidIdentifier
  | missingComma
  | eofWhileParsingList
  | eofWhileParsingObject
  | eofWhileParsingString
  | eofWhileParsingValue
  | expectedColon
  | invalidEscape
  | invalidNumber
  | numberOutOfRange
  | invalidUnicodeCodePoint
  | controlCharacterWhileParsingString
  | keyMustBeAString
  | loneLeadingSurrogateInHexEscape
  | trailingComma
  | trailingCharacters
  | unexpectedEndOfHexEscape
  | recursionLimitExceeded
deriving DecidableEq, Repr

/-- The Skip enum of src/parse.rs. -/
inductive Skip where
  | array
  | object
  | objectValue (key_consumed : Bool)
  | string
deriving DecidableEq, Repr

/-- NumRepr of src/parse.rs.  PosInt carries the u64 value as a Nat,
NegInt the i64 value as an Int, Float the binary64 modelled by its
literal text. -/
inductive NumRepr where
  | posInt (n : Nat)
  | negInt (i : Int)
  | float (lit : List Nat)
deriving DecidableEq, Repr

/-- The Number struct of src/parse.rs. -/
structure Number where
  n : NumRepr
deriving DecidableEq, Repr

/-- From<u64-like> for Number (impl_from_unsigned): always PosInt. -/
def Number.fromUnsigned (u : Nat) : Number :=
  ⟨NumRepr.posInt u⟩

/-- From<i64-like> for Number (impl_from_signed): NegInt iff the input is
negative, else PosInt of the same (non-negative) value. -/
def Number.fromSigned (i : Int) : Number :=
  if i < 0 then ⟨NumRepr.negInt i⟩ else ⟨NumRepr.posInt i.toNat⟩

/-- From<f64> for Number: always Float. -/
def Number.fromFloat (lit : List Nat) : Number :=
  ⟨NumRepr.float lit⟩

/-- The Json value returned by next_any_item.  String, array and object
values are sub-parser handles; the handle constructors carry no data
because a freshly constructed handle has fixed initial flags, tracked
separately by the caller. -/
inductive JVal where
  | null
  | bool (b : Bool)
  | number (n : Number)
  | stringH
  | arrayH
  | objectH
deriving DecidableEq, Repr

/-- JResult: Result of Json or (syntax) Error. -/
abbrev JRes := Except SyntaxError JVal

/-- Outcome of running a piece of the parser: a normal result, a Rust
panic, or fuel exhaustion (an artifact of the embedding, never produced
by the code itself). -/
inductive Out (α : Type) where
  | ok : α → Out α
  | panicked : Out α
  | nofuel : Out α
deriving DecidableEq, Repr

/-- Decimal value of a digit run; none if empty or a non-digit appears. -/
def digitsVal : List Nat → Option Nat
  | [] => none
  | [b] => if isDigitByte b then some (b - 48) else none
  | b :: rest =>
    if isDigitByte b then
      match digitsVal rest with
      | some v => some ((b - 48) * 10 ^ rest.length + v)
      | none => none
    else none

/-- str::parse::<u64>: optional leading plus, then a nonempty digit run
whose value fits in 64 bits. -/
def u64_parse : List Nat → Option Nat
  | 43 :: rest =>
    match digitsVal rest with
    | some v => if v < 2 ^ 64 then some v else none
    | none => none
  | l =>
    match digitsVal l with
    | some v => if v < 2 ^ 64 then some v else none
    | none => none

/-- str::parse::<i64>: optional sign, then a nonempty digit run, with the
signed value in the i64 range. -/
def i64_parse : List Nat → Option Int
  | 45 :: rest =>
    match digitsVal rest with
    | some v => if v ≤ 2 ^ 63 then some (-(v : Int)) else none
    | none => none
  | 43 :: rest =>
    match digitsVal rest with
    | some v => if v < 2 ^ 63 then some (v : Int) else none
    | none => none
  | l =>
    match digitsVal l with
    | some v => if v < 2 ^ 63 then some (v : Int) else none
    | none => none

/-- All bytes are ASCII digits. -/
def allDigits (l : List Nat) : Bool :=
  l.all isDigitByte

/-- Splits a maximal leading digit run. -/
def takeDigits : List Nat → List Nat × List Nat
  | [] => ([], [])
  | b :: rest =>
    if isDigitByte b then
      let (d, r) := takeDigits rest
      (b :: d, r)
    else ([], b :: rest)

/-- Exponent part of the float grammar: (e|E) sign? digits, consuming the
whole remaining text. -/
def f64_exp_ok (l : List Nat) : Bool :=
  match l with
  | e :: rest =>
    if e = 101 || e = 69 then
      match rest with
      | 43 :: ds => !ds.isEmpty && allDigits ds
      | 45 :: ds => !ds.isEmpty && allDigits ds
      | ds => !ds.isEmpty && allDigits ds
    else false
  | [] => false

/-- Mantissa-and-exponent part of the std float grammar:
(digits [. digits*] | . digits+) [exp]. -/
def f64_number_ok (l : List Nat) : Bool :=
  match takeDigits l with
  | ([], 46 :: rest) =>
    match takeDigits rest with
    | ([], _) => false
    | (_, []) => true
    | (_, tail) => f64_exp_ok tail
  | ([], _) => false
  | (_, []) => true
  | (_, 46 :: rest) =>
    match takeDigits rest with
    | (_, []) => true
    | (_, tail) => f64_exp_ok tail
  | (_, tail) => f64_exp_ok tail

/-- str::parse::<f64> success, restricted to texts made of the bytes the
number accumulator can produce (digits, dot, e, plus, minus; so the inf
and nan branches of the std grammar are unreachable and omitted). -/
def f64_parse_ok (l : List Nat) : Bool :=
  match l with
  | 43 :: rest => f64_number_ok rest
  | 45 :: rest => f64_number_ok rest
  | rest => f64_number_ok rest

/-- Parser session state: remaining input bytes and the skip queue (the
skips Vec; push appends at the back). -/
structure PState where
  input : List Nat
  skips : List Skip
deriving DecidableEq, Repr

/-- Parser::add_skip: push onto the skips Vec. -/
def add_skip (s : Skip) (st : PState) : PState :=
  { st with skips := st.skips ++ [s] }

/-- eat_whitespace: advance while the peeked byte is ASCII whitespace. -/
def eat_whitespace_list : List Nat → List Nat
  | [] => []
  | b :: rest =>
    if isWsByte b then eat_whitespace_list rest else b :: rest

def eat_whitespace (st : PState) : PState :=
  { st with input := eat_whitespace_list st.input }

/-- eat_until_whitespace: advance until end of stream or a whitespace byte
has just been consumed. -/
def eat_until_whitespace_list : List Nat → List Nat
  | [] => []
  | b :: rest =>
    if isWsByte b then rest else eat_until_whitespace_list rest

def eat_until_whitespace (st : PState) : PState :=
  { st with input := eat_until_whitespace_list st.input }

/-- skip_string: consume bytes tracking a backslash-escape flag until an
unescaped closing quote (or end of stream). -/
def skip_string_from (escape : Bool) : List Nat → List Nat
  | [] => []
  | b :: rest =>
    if b = 92 && !escape then skip_string_from true rest
    else if b = 34 && !escape then rest
    else skip_string_from false rest

def skip_string (st : PState) : PState :=
  { st with input := skip_string_from false st.input }

/-- parse_ident: byte-exact match of the identifier tail; a mismatch
consumes to the next whitespace and yields InvalidIdentifier, end of
stream yields EofWhileParsingValue. -/
def parse_ident (ident : List Nat) (res : JVal) (st : PState) : JRes × PState :=
  match ident with
  | [] => (Except.ok res, st)
  | b :: tl =>
    match st.input with
    | [] => (Except.error SyntaxError.eofWhileParsingValue, { st with input := [] })
    | r :: rest =>
      if b = r then parse_ident tl res { st with input := rest }
      else (Except.error SyntaxError.invalidIdentifier,
            eat_until_whitespace { st with input := rest })

/-- The accumulation loop of parse_number: push bytes while the lookahead
is a digit, dot, lowercase e, plus or minus. -/
def num_accum : List Nat → List Nat × List Nat
  | [] => ([], [])
  | b :: rest =>
    if isDigitByte b || b = 46 || b = 101 || b = 43 || b = 45 then
      let (acc, rem) := num_accum rest
      (b :: acc, rem)
    else ([], b :: rest)

/-- parse_number: accumulate the literal, then the triad rule: u64 parse,
else i64 parse, else f64 parse, whose failure is an unwrap panic. -/
def parse_number (first : Nat) (st : PState) : Out (Number × PState) :=
  let (acc, rem) := num_accum st.input
  let s := first :: acc
  let st' := { st with input := rem }
  match u64_parse s with
  | some n => Out.ok (Number.fromUnsigned n, st')
  | none =>
    match i64_parse s with
    | some i => Out.ok (Number.fromSigned i, st')
    | none =>
      if f64_parse_ok s then Out.ok (Number.fromFloat s, st')
      else Out.panicked

/-- next_any_item: dispatch on the first (already consumed) byte. -/
def next_any_item (b : Nat) (st : PState) : Out (JRes × PState) :=
  if isDigitByte b || b = 45 then
    match parse_number b st with
    | Out.ok (n, st') => Out.ok (Except.ok (JVal.number n), st')
    | Out.panicked => Out.panicked
    | Out.nofuel => Out.nofuel
  else if b = 110 then Out.ok (parse_ident (strBytes "ull") JVal.null st)
  else if b = 116 then Out.ok (parse_ident (strBytes "rue") (JVal.bool true) st)
  else if b = 102 then Out.ok (parse_ident (strBytes "alse") (JVal.bool false) st)
  else if b = 91 then Out.ok (Except.ok JVal.arrayH, st)
  else if b = 123 then Out.ok (Except.ok JVal.objectH, st)
  else if b = 34 then Out.ok (Except.ok JVal.stringH, st)
  else if isAlphaByte b then
    Out.ok (Except.error SyntaxError.invalidIdentifier, eat_until_whitespace st)
  else Out.panicked

/-- ParseString::read_into: push raw bytes (no escape decoding) until a
quote terminates the loop; end of stream is EofWhileParsingString. -/
def read_into_list (buf : List Nat) : List Nat → Except SyntaxError (List Nat) × List Nat
  | [] => (Except.error SyntaxError.eofWhileParsingString, [])
  | b :: rest =>
    if b = 34 then (Except.ok buf, rest)
    else read_into_list (buf ++ [b]) rest

def read_into (buf : List Nat) (st : PState) : Except SyntaxError (List Nat) × PState :=
  match read_into_list buf st.input with
  | (r, rem) => (r, { st with input := rem })

/-- ParseString::read_owned: read_into an empty buffer, unwrapping the
result (a panic on Err). -/
def read_owned (st : PState) : Out (List Nat × PState) :=
  match read_into [] st with
  | (Except.ok buf, st') => Out.ok (buf, st')
  | (Except.error _, _) => Out.panicked

/-- char::try_from(u32): a Unicode scalar value, i.e. below the surrogate
range or between it and 0x10FFFF. -/
def isValidScalar (val : Nat) : Bool :=
  val < 0xD800 || (0xE000 ≤ val && val ≤ 0x10FFFF)

/-- ParseChars::unicode_escape: accumulate hex digits drawn from 0-9 and
lowercase a-f only, finish on a closing brace with char::try_from, and
bail out (None) on any other byte or end of stream.  The u32 accumulator
wraps, as in release-mode Rust arithmetic. -/
def unicode_escape (val : Nat) : List Nat → Option Nat × List Nat
  | [] => (none, [])
  | c :: rest =>
    if isDigitByte c then unicode_escape ((val * 16 + (c - 48)) % 2 ^ 32) rest
    else if 97 ≤ c && c ≤ 102 then
      unicode_escape ((val * 16 + (c - 97) + 10) % 2 ^ 32) rest
    else if c = 125 then ((if isValidScalar val then some val else none), rest)
    else (none, rest)

theorem unicode_escape_len (val : Nat) (l : List Nat) :
    (unicode_escape val l).2.length ≤ l.length := by
  induction l generalizing val with
  | nil => simp [unicode_escape]
  | cons c rest ih =>
    simp only [unicode_escape]
    split
    · exact Nat.le_trans (ih _) (Nat.le_succ _)
    · split
      · exact Nat.le_trans (ih _) (Nat.le_succ _)
      · split
        · simp
        · simp

/-- ParseChars::next (the Iterator impl): loop with an escape flag.  Only
backslash, quote, the single letter r, and the braced u escape receive
special treatment; every other byte (escaped or not) is returned as the
char with that byte value.  End of stream yields None. -/
def chars_next_from (f : Nat) (escape : Bool) (l : List Nat) : Out (Option Nat × List Nat) :=
  match f with
  | 0 => Out.nofuel
  | f + 1 =>
    match l with
    | [] => Out.ok (none, [])
    | b :: rest =>
      if b = 92 && !escape then chars_next_from f true rest
      else if b = 34 && !escape then Out.ok (none, rest)
      else if b = 114 && escape then Out.ok (some 13, rest)
      else if b = 117 && escape then
        match rest with
        | [] => Out.ok (none, [])
        | b2 :: rest2 =>
          if b2 = 123 then
            match unicode_escape 0 rest2 with
            | (some c, r) => Out.ok (some c, r)
            | (none, r) => chars_next_from f escape r
          else chars_next_from f escape rest2
      else Out.ok (some b, rest)

def chars_next (f : Nat) (st : PState) : Out (Option Nat × PState) :=
  match chars_next_from f false st.input with
  | Out.ok (r, rem) => Out.ok (r, { st with input := rem })
  | Out.panicked => Out.panicked
  | Out.nofuel => Out.nofuel

/-- ParseArray handle flags. -/
structure ParseArray where
  ended : Bool
  needs_comma : Bool
deriving DecidableEq, Repr

/-- ParseObject handle flags. -/
structure ParseObject where
  ended : Bool
deriving DecidableEq, Repr

/-- KeyVal handle flags. -/
structure KeyVal where
  key_consumed : Bool
deriving DecidableEq, Repr

/-- Drop for ParseArray: enqueue Skip::Array unless ended.  Drop never
touches the input bytes. -/
def drop_array (a : ParseArray) (st : PState) : PState :=
  if a.ended then st else add_skip Skip.array st

/-- Drop for ParseObject: enqueue Skip::Object unless ended. -/
def drop_object (o : ParseObject) (st : PState) : PState :=
  if o.ended then st else add_skip Skip.object st

/-- Drop for a ParseString still holding its session: enqueue Skip::String. -/
def drop_parse_string (st : PState) : PState :=
  add_skip Skip.string st

/-- Drop for KeyVal (value not taken): enqueue Skip::ObjectValue. -/
def drop_keyval (kv : KeyVal) (st : PState) : PState :=
  add_skip (Skip.objectValue kv.key_consumed) st

/-- Dropping the temporary Json yielded inside the skip loops: handle
variants enqueue their skip, immediate values and errors do nothing. -/
def drop_jres (r : JRes) (st : PState) : PState :=
  match r with
  | Except.ok JVal.stringH => add_skip Skip.string st
  | Except.ok JVal.arrayH => add_skip Skip.array st
  | Except.ok JVal.objectH => add_skip Skip.object st
  | _ => st

mutual

/-- Parser::do_skips: take the whole queue and run the jobs front to back
(the order the Vec iterator produces, i.e. insertion order). -/
def do_skips (f : Nat) (st : PState) : Out PState :=
  match f with
  | 0 => Out.nofuel
  | f + 1 =>
    if st.skips.isEmpty then Out.ok st
    else run_skips f st.skips { st with skips := [] }

/-- The for loop inside do_skips over the taken Vec. -/
def run_skips (f : Nat) (jobs : List Skip) (st : PState) : Out PState :=
  match f with
  | 0 => Out.nofuel
  | f + 1 =>
    match jobs with
    | [] => Out.ok st
    | j :: rest =>
      let step :=
        match j with
        | Skip.string => Out.ok (skip_string st)
        | Skip.array => skip_array f st
        | Skip.object => skip_obj f st
        | Skip.objectValue kc => skip_obj_value f kc st
      match step with
      | Out.ok st' => run_skips f rest st'
      | Out.panicked => Out.panicked
      | Out.nofuel => Out.nofuel

/-- skip_array: construct a fresh ParseArray and drive it to exhaustion. -/
def skip_array (f : Nat) (st : PState) : Out PState :=
  match f with
  | 0 => Out.nofuel
  | f + 1 => arr_exhaust f ⟨false, false⟩ st

/-- The while arr.next().is_some() loop: each yielded Json is dropped,
and when the loop ends the transient ParseArray itself is dropped
(enqueueing Skip::Array if the close bracket was never reached, i.e. on
end of stream). -/
def arr_exhaust (f : Nat) (a : ParseArray) (st : PState) : Out PState :=
  match f with
  | 0 => Out.nofuel
  | f + 1 =>
    match arr_next f a st with
    | Out.ok (none, a', st') => Out.ok (drop_array a' st')
    | Out.ok (some r, a', st') => arr_exhaust f a' (drop_jres r st')
    | Out.panicked => Out.panicked
    | Out.nofuel => Out.nofuel

/-- skip_obj: construct a fresh ParseObject and drive it to exhaustion. -/
def skip_obj (f : Nat) (st : PState) : Out PState :=
  match f with
  | 0 => Out.nofuel
  | f + 1 => obj_exhaust f ⟨false⟩ st

/-- The while obj.next().is_some() loop: each yielded KeyVal is dropped,
enqueueing Skip::ObjectValue with key_consumed false; when the loop ends
the transient ParseObject itself is dropped (enqueueing Skip::Object if
the close brace was never reached, i.e. on end of stream). -/
def obj_exhaust (f : Nat) (o : ParseObject) (st : PState) : Out PState :=
  match f with
  | 0 => Out.nofuel
  | f + 1 =>
    match obj_next f o st with
    | Out.ok (none, o', st') => Out.ok (drop_object o' st')
    | Out.ok (some _, o', st') =>
      obj_exhaust f o' (add_skip (Skip.objectValue false) st')
    | Out.panicked => Out.panicked
    | Out.nofuel => Out.nofuel

/-- skip_obj_value: loop read_value until it returns Ok, then exhaust the
returned value if it is a handle. -/
def skip_obj_value (f : Nat) (kc : Bool) (st : PState) : Out PState :=
  match f with
  | 0 => Out.nofuel
  | f + 1 =>
    match read_value f kc st with
    | Out.ok (Except.ok v, st') => json_exhaust f v st'
    | Out.ok (Except.error _, st') => skip_obj_value f kc st'
    | Out.panicked => Out.panicked
    | Out.nofuel => Out.nofuel

/-- The match at the end of skip_obj_value: a String value is skipped via
ParseString::skip — p.skip() does not take the session out of p, so the
ParseString handle p is then dropped with its session still present,
enqueueing a (spurious) Skip::String; an Array or Object is driven to
exhaustion and then dropped (a no-op once ended); immediate values need
nothing. -/
def json_exhaust (f : Nat) (v : JVal) (st : PState) : Out PState :=
  match f with
  | 0 => Out.nofuel
  | f + 1 =>
    match v with
    | JVal.stringH => Out.ok (add_skip Skip.string (skip_string st))
    | JVal.arrayH => arr_exhaust f ⟨false, false⟩ st
    | JVal.objectH => obj_exhaust f ⟨false⟩ st
    | _ => Out.ok st

/-- read_value: skip the key string unless already consumed, eat
whitespace, assert the next byte is a colon (panic otherwise, also at end
of stream), eat whitespace, then dispatch the next byte; end of stream
there is EofWhileParsingValue. -/
def read_value (f : Nat) (kc : Bool) (st : PState) : Out (JRes × PState) :=
  match f with
  | 0 => Out.nofuel
  | _ + 1 =>
    let st1 := if kc then st else skip_string st
    let st2 := eat_whitespace st1
    match st2.input with
    | 58 :: rest =>
      let st3 := eat_whitespace { st2 with input := rest }
      match st3.input with
      | [] => Out.ok (Except.error SyntaxError.eofWhileParsingValue, st3)
      | b :: r2 => next_any_item b { st3 with input := r2 }
    | _ => Out.panicked

/-- ParseArray::next: None once ended, otherwise drain skips then loop. -/
def arr_next (f : Nat) (a : ParseArray) (st : PState) :
    Out (Option JRes × ParseArray × PState) :=
  match f with
  | 0 => Out.nofuel
  | f + 1 =>
    if a.ended then Out.ok (none, a, st)
    else
      match do_skips f st with
      | Out.ok st1 => arr_loop f a st1
      | Out.panicked => Out.panicked
      | Out.nofuel => Out.nofuel

/-- The loop on peek inside ParseArray::next: close bracket ends, comma
toggles needs_comma or is a TrailingComma error, whitespace is eaten, any
other byte is a MissingComma error (peeked byte left in place) when a
comma was due, else is consumed and dispatched. -/
def arr_loop (f : Nat) (a : ParseArray) (st : PState) :
    Out (Option JRes × ParseArray × PState) :=
  match f with
  | 0 => Out.nofuel
  | f + 1 =>
    match st.input with
    | [] => Out.ok (none, a, st)
    | b :: rest =>
      if b = 93 then
        Out.ok (none, { a with ended := true }, { st with input := rest })
      else if b = 44 then
        if a.needs_comma then
          arr_loop f { a with needs_comma := false } { st with input := rest }
        else
          Out.ok (some (Except.error SyntaxError.trailingComma), a,
                  { st with input := rest })
      else if isWsByte b then arr_loop f a { st with input := rest }
      else if a.needs_comma then
        Out.ok (some (Except.error SyntaxError.missingComma),
                { a with needs_comma := false }, st)
      else
        match next_any_item b { st with input := rest } with
        | Out.ok (r, st') => Out.ok (some r, { a with needs_comma := true }, st')
        | Out.panicked => Out.panicked
        | Out.nofuel => Out.nofuel

/-- ParseObject::next: None once ended, otherwise drain skips then loop.
A yielded pair is a fresh KeyVal, modelled as some unit. -/
def obj_next (f : Nat) (o : ParseObject) (st : PState) :
    Out (Option Unit × ParseObject × PState) :=
  match f with
  | 0 => Out.nofuel
  | f + 1 =>
    if o.ended then Out.ok (none, o, st)
    else
      match do_skips f st with
      | Out.ok st1 => obj_loop f o st1
      | Out.panicked => Out.panicked
      | Out.nofuel => Out.nofuel

/-- The loop on peek inside ParseObject::next: whitespace and commas are
eaten, a closing brace ends, a quote begins a KeyVal, anything else is an
unhandled-char panic. -/
def obj_loop (f : Nat) (o : ParseObject) (st : PState) :
    Out (Option Unit × ParseObject × PState) :=
  match f with
  | 0 => Out.nofuel
  | f + 1 =>
    match st.input with
    | [] => Out.ok (none, o, st)
    | b :: rest =>
      if isWsByte b || b = 44 then obj_loop f o { st with input := rest }
      else if b = 125 then
        Out.ok (none, { o with ended := true }, { st with input := rest })
      else if b = 34 then Out.ok (some (), o, { st with input := rest })
      else Out.panicked

end

/-- Parser::next: drain skips, eat whitespace, None at end of stream,
else consume one byte and dispatch. -/
def parser_next (f : Nat) (st : PState) : Out (Option JRes × PState) :=
  match do_skips f st with
  | Out.ok st1 =>
    let st2 := eat_whitespace st1
    match st2.input with
    | [] => Out.ok (none, st2)
    | b :: rest =>
      match next_any_item b { st2 with input := rest } with
      | Out.ok (r, st') => Out.ok (some r, st')
      | Out.panicked => Out.panicked
      | Out.nofuel => Out.nofuel
  | Out.panicked => Out.panicked
  | Out.nofuel => Out.nofuel

/-- KeyVal::key: asserts the key was not already consumed (panic), marks
it consumed and hands out a ParseString over the session. -/
def KeyVal.key (kv : KeyVal) : Out KeyVal :=
  if kv.key_consumed then Out.panicked else Out.ok ⟨true⟩

/-- KeyVal::value: read_value with this pair's key_consumed flag; the
KeyVal is consumed, so no drop follows. -/
def KeyVal.value (f : Nat) (kv : KeyVal) (st : PState) : Out (JRes × PState) :=
  read_value f kv.key_consumed st

/-!
Emitter model (src/emit.rs).  The byte sink is modelled as the list of
bytes written so far; sink failure (Io errors) is not modelled, so every
put succeeds.  A JsonEmit value is modelled by the byte list its write_to
produces. -/

/-- The Emitter struct: sink contents plus the started flag. -/
structure Emitter where
  dst : List Nat
  started : Bool
deriving DecidableEq, Repr

/-- Emitter::new. -/
def Emitter.new : Emitter :=
  ⟨[], false⟩

/-- Emitter::start: nothing before the first item, a newline before every
following top-level item. -/
def Emitter.start (e : Emitter) : Emitter :=
  if !e.started then { e with started := true }
  else { e with dst := e.dst ++ [10] }

/-- Emitter::emit: start, then the value's write_to bytes. -/
def Emitter.emit (e : Emitter) (v : List Nat) : Emitter :=
  let e1 := e.start
  { e1 with dst := e1.dst ++ v }

/-- str::write_to (JsonEmit for str): a quote, the raw bytes with no
escape encoding, a quote. -/
def str_write_to (s : List Nat) : List Nat :=
  34 :: (s ++ [34])

/-- EmitArray handle: the sink contents and this array's started flag. -/
structure EmitArray where
  dst : List Nat
  started : Bool
deriving DecidableEq, Repr

/-- EmitArray::new writes the opening bracket. -/
def EmitArray.new (dst : List Nat) : EmitArray :=
  ⟨dst ++ [91], false⟩

/-- EmitArray::start: nothing before the first element, a comma before
every following one. -/
def EmitArray.start (a : EmitArray) : EmitArray :=
  if !a.started then { a with started := true }
  else { a with dst := a.dst ++ [44] }

/-- EmitArray::emit: start, then the value's write_to bytes. -/
def EmitArray.emit (a : EmitArray) (v : List Nat) : EmitArray :=
  let a1 := a.start
  { a1 with dst := a1.dst ++ v }

/-- Drop for EmitArray writes the closing bracket. -/
def EmitArray.drop (a : EmitArray) : List Nat :=
  a.dst ++ [93]

/-- EmitObject handle: the sink contents and this object's started flag. -/
structure EmitObject where
  dst : List Nat
  started : Bool
deriving DecidableEq, Repr

/-- EmitObject::new writes the opening brace. -/
def EmitObject.new (dst : List Nat) : EmitObject :=
  ⟨dst ++ [123], false⟩

/-- EmitObject::start: nothing before the first pair, a comma before
every following one. -/
def EmitObject.start (o : EmitObject) : EmitObject :=
  if !o.started then { o with started := true }
  else { o with dst := o.dst ++ [44] }

/-- EmitObject::emit(key, value): start, the key as a quoted byte-exact
copy (str::write_to), a colon, then the value's write_to bytes. -/
def EmitObject.emit (o : EmitObject) (key v : List Nat) : EmitObject :=
  let o1 := o.start
  { o1 with dst := o1.dst ++ str_write_to key ++ [58] ++ v }

/-- Drop for EmitObject writes the closing brace. -/
def EmitObject.drop (o : EmitObject) : List Nat :=
  o.dst ++ [125]

/-- Test driver: call Parser::next repeatedly, collecting results. -/
def parser_run (f : Nat) : Nat → PState → List (Out (Option JRes))
  | 0, _ => []
  | n + 1, st =>
    match parser_next f st with
    | Out.ok (r, st') => Out.ok r :: parser_run f n st'
    | Out.panicked => [Out.panicked]
    | Out.nofuel => [Out.nofuel]

/-- C1: the claim says all three string-reading routes decode escapes, and
that read_owned on the source text of the string a backslash quote b c
returns the five characters a quote b c.  The code does the opposite:
read_into pushes raw bytes and terminates on the first 0x22 byte even
right after a backslash, so read_owned on the body of that input returns
the two bytes a backslash and leaves bc unconsumed; and the chars route
maps the two-byte escape backslash-n to the letter n, not to a line feed.
This theorem evaluates the code at the failing input. -/
theorem c1_read_owned_no_escape_decoding :
    read_owned ⟨strBytes "a\\\"bc\"", []⟩ =
        Out.ok (strBytes "a\\", ⟨strBytes "bc\"", []⟩)
      ∧ strBytes "a\\" ≠ strBytes "a\"bc"
      ∧ chars_next 100 ⟨strBytes "\\nx\"", []⟩ =
          Out.ok (some 110, ⟨strBytes "x\"", []⟩)
      ∧ (110 : Nat) ≠ 10 := by
  refine ⟨by rfl, by decide, by rfl, by decide⟩

/-- C6: the number text 1.2.3 fails the u64, i64 and f64 parses, and
parse_number unwraps the failed f64 parse: the code panics instead of
returning InvalidNumber.  This theorem evaluates the code at the failing
input (first byte 1, lookahead .2.3). -/
theorem c6_invalid_number_panics :
    u64_parse (strBytes "1.2.3") = none
      ∧ i64_parse (strBytes "1.2.3") = none
      ∧ f64_parse_ok (strBytes "1.2.3") = false
      ∧ parse_number 49 ⟨strBytes ".2.3", []⟩ = Out.panicked := by
  refine ⟨by rfl, by rfl, by rfl, by rfl⟩

/-- C4: triad narrowing.  If the accumulated text parses as u64 the result
is the unsigned representation; else if it parses as i64, the signed one;
else the binary64 one (modelled by its literal).  The concrete top-level
sequence null true false 0 1 -2 6.28 yields Null, Bool(true),
Bool(false), 0 unsigned, 1 unsigned, -2 signed, 6.28 float, then None. -/
theorem c4_triad_narrowing :
    (∀ (first : Nat) (st : PState) (n : Nat),
        u64_parse (first :: (num_accum st.input).1) = some n →
        parse_number first st =
          Out.ok (Number.fromUnsigned n, { st with input := (num_accum st.input).2 }))
      ∧ (∀ (first : Nat) (st : PState) (i : Int),
        u64_parse (first :: (num_accum st.input).1) = none →
        i64_parse (first :: (num_accum st.input).1) = some i →
        parse_number first st =
          Out.ok (Number.fromSigned i, { st with input := (num_accum st.input).2 }))
      ∧ (∀ (first : Nat) (st : PState),
        u64_parse (first :: (num_accum st.input).1) = none →
        i64_parse (first :: (num_accum st.input).1) = none →
        f64_parse_ok (first :: (num_accum st.input).1) = true →
        parse_number first st =
          Out.ok (Number.fromFloat (first :: (num_accum st.input).1),
                  { st with input := (num_accum st.input).2 }))
      ∧ parser_run 100 8 ⟨strBytes "null true false 0 1 -2 6.28", []⟩ =
          [Out.ok (some (Except.ok JVal.null)),
           Out.ok (some (Except.ok (JVal.bool true))),
           Out.ok (some (Except.ok (JVal.bool false))),
           Out.ok (some (Except.ok (JVal.number (Number.fromUnsigned 0)))),
           Out.ok (some (Except.ok (JVal.number (Number.fromUnsigned 1)))),
           Out.ok (some (Except.ok (JVal.number (Number.fromSigned (-2))))),
           Out.ok (some (Except.ok (JVal.number (Number.fromFloat (strBytes "6.28"))))),
           Out.ok none] := by
  refine ⟨?_, ?_, ?_, by rfl⟩
  · intro first st n h
    rcases hna : num_accum st.input with ⟨acc, rem⟩
    rw [hna] at h
    simp only at h
    simp [parse_number, hna, h]
  · intro first st i hu hi
    rcases hna : num_accum st.input with ⟨acc, rem⟩
    rw [hna] at hu hi
    simp only at hu hi
    simp [parse_number, hna, hu, hi]
  · intro first st hu hi hf
    rcases hna : num_accum st.input with ⟨acc, rem⟩
    rw [hna] at hu hi hf
    simp only at hu hi hf
    simp [parse_number, hna, hu, hi, hf]

/-- Witness for C4: the text 0 parses as u64, and parse_number narrows it
to the unsigned representation. -/
theorem c4_triad_narrowing_witness :
    u64_parse [48] = some 0
      ∧ parse_number 48 ⟨[], []⟩ = Out.ok (Number.fromUnsigned 0, ⟨[], []⟩) :=
  ⟨by decide, c4_triad_narrowing.1 48 ⟨[], []⟩ 0 (by decide)⟩

/-- C5: ParseArray missing-comma recovery.  With needs_comma set, a peeked
byte that is not whitespace, not a comma and not a closing bracket makes
next() clear needs_comma and return Err(MissingComma) while leaving the
byte unconsumed; and the concrete run on the input [1 2] yields 1, then
Err(MissingComma), then 2, then None, with the cursor states showing the
byte 2 still in place after the error. -/
theorem c5_missing_comma_recovery :
    (∀ (k b : Nat) (rest : List Nat),
        isWsByte b = false → b ≠ 44 → b ≠ 93 →
        arr_next (k + 2) ⟨false, true⟩ ⟨b :: rest, []⟩ =
          Out.ok (some (Except.error SyntaxError.missingComma),
                  ⟨false, false⟩, ⟨b :: rest, []⟩))
      ∧ parser_next 100 ⟨strBytes "[1 2]", []⟩ =
          Out.ok (some (Except.ok JVal.arrayH), ⟨strBytes "1 2]", []⟩)
      ∧ arr_next 100 ⟨false, false⟩ ⟨strBytes "1 2]", []⟩ =
          Out.ok (some (Except.ok (JVal.number (Number.fromUnsigned 1))),
                  ⟨false, true⟩, ⟨strBytes " 2]", []⟩)
      ∧ arr_next 100 ⟨false, true⟩ ⟨strBytes " 2]", []⟩ =
          Out.ok (some (Except.error SyntaxError.missingComma),
                  ⟨false, false⟩, ⟨strBytes "2]", []⟩)
      ∧ arr_next 100 ⟨false, false⟩ ⟨strBytes "2]", []⟩ =
          Out.ok (some (Except.ok (JVal.number (Number.fromUnsigned 2))),
                  ⟨false, true⟩, ⟨strBytes "]", []⟩)
      ∧ arr_next 100 ⟨false, true⟩ ⟨strBytes "]", []⟩ =
          Out.ok (none, ⟨true, true⟩, ⟨[], []⟩) := by
  refine ⟨?_, by rfl, by rfl, by rfl, by rfl, by rfl⟩
  intro k b rest hws h44 h93
  simp [arr_next, do_skips, arr_loop, hws, h44, h93]

/-- Witness for C5: the missing-comma step at the concrete byte 2 (0x32). -/
theorem c5_missing_comma_recovery_witness :
    isWsByte 50 = false ∧ (50 : Nat) ≠ 44 ∧ (50 : Nat) ≠ 93
      ∧ arr_next 2 ⟨false, true⟩ ⟨[50], []⟩ =
          Out.ok (some (Except.error SyntaxError.missingComma),
                  ⟨false, false⟩, ⟨[50], []⟩) :=
  ⟨by decide, by decide, by decide,
   c5_missing_comma_recovery.1 0 50 [] (by decide) (by decide) (by decide)⟩

/-- C3: do_skips takes the whole queue and executes the jobs in insertion
order (the order the handles were dropped), since the taken Vec is
iterated front to back.  The two-job scenario from the claim makes the
order observable: inside the object with pairs ab:1 and c:2, the key
string of the first pair is read up to the byte a and dropped (enqueues
SkipString), then its KeyVal is dropped (enqueues SkipObjectValue with
key_consumed).  Draining in insertion order finishes the key, then skips
the value, and the next object read yields the second pair; draining
newest-first would execute the value skip mid-key and panic on the
missing colon. -/
theorem c3_skip_queue_insertion_order :
    (∀ (f : Nat) (j : Skip) (js : List Skip) (input : List Nat),
        do_skips (f + 1) ⟨input, j :: js⟩ = run_skips f (j :: js) ⟨input, []⟩)
      ∧ parser_next 100 ⟨strBytes "\x7b\"ab\":1,\"c\":2\x7d", []⟩ =
          Out.ok (some (Except.ok JVal.objectH), ⟨strBytes "\"ab\":1,\"c\":2\x7d", []⟩)
      ∧ obj_next 100 ⟨false⟩ ⟨strBytes "\"ab\":1,\"c\":2\x7d", []⟩ =
          Out.ok (some (), ⟨false⟩, ⟨strBytes "ab\":1,\"c\":2\x7d", []⟩)
      ∧ KeyVal.key ⟨false⟩ = Out.ok ⟨true⟩
      ∧ chars_next 100 ⟨strBytes "ab\":1,\"c\":2\x7d", []⟩ =
          Out.ok (some 97, ⟨strBytes "b\":1,\"c\":2\x7d", []⟩)
      ∧ drop_keyval ⟨true⟩ (drop_parse_string ⟨strBytes "b\":1,\"c\":2\x7d", []⟩) =
          ⟨strBytes "b\":1,\"c\":2\x7d", [Skip.string, Skip.objectValue true]⟩
      ∧ run_skips 100 [Skip.string, Skip.objectValue true]
            ⟨strBytes "b\":1,\"c\":2\x7d", []⟩ =
          Out.ok ⟨strBytes ",\"c\":2\x7d", []⟩
      ∧ run_skips 100 [Skip.objectValue true, Skip.string]
            ⟨strBytes "b\":1,\"c\":2\x7d", []⟩ = Out.panicked
      ∧ obj_next 100 ⟨false⟩
            ⟨strBytes "b\":1,\"c\":2\x7d", [Skip.string, Skip.objectValue true]⟩ =
          Out.ok (some (), ⟨false⟩, ⟨strBytes "c\":2\x7d", []⟩)
      ∧ KeyVal.value 100 ⟨false⟩ ⟨strBytes "c\":2\x7d", []⟩ =
          Out.ok (Except.ok (JVal.number (Number.fromUnsigned 2)), ⟨strBytes "\x7d", []⟩)
      ∧ obj_next 100 ⟨false⟩ ⟨strBytes "\x7d", []⟩ =
          Out.ok (none, ⟨true⟩, ⟨[], []⟩) := by
  refine ⟨?_, by rfl, by rfl, by rfl, by rfl, by rfl, by rfl, by rfl, by rfl,
          by rfl, by rfl⟩
  intro f j js input
  simp [do_skips]

/-- C7 counterexample: the claim admits uppercase hex digits A-F in the
braced unicode escape.  The code's unicode_escape accepts only 0-9 and
lowercase a-f: on the escape backslash-u-{A}, the byte A aborts the
escape (returning no char), and the iterator, still in escape state,
yields the next raw byte, the closing brace 0x7D, instead of the
character U+000A the claim requires. -/
theorem c7_unicode_uppercase_counterexample :
    chars_next 100 ⟨strBytes "\\u{A}\"", []⟩ =
        Out.ok (some 125, ⟨strBytes "\"", []⟩)
      ∧ (125 : Nat) ≠ 10 :=
  ⟨by rfl, by decide⟩

/-- C7 amended: the braced escape decodes hex digits drawn from 0-9 and
lowercase a-f only; on the closing brace the accumulated value is checked
by char::try_from, and a numerically invalid scalar (e.g. the surrogate
0xD800) yields no character and no error: the escape is dropped and
iteration continues (here yielding the following letter x).  An uppercase
digit aborts the escape, iteration resuming after it in escape state.
Reading the string backslash-u-{1234} char-by-char yields the single
character U+1234. -/
theorem c7_unicode_escape_amended :
    (∀ (val : Nat) (rest : List Nat),
        unicode_escape val (125 :: rest) =
          ((if isValidScalar val then some val else none), rest))
      ∧ chars_next 100 ⟨strBytes "\\u{1234}\"", []⟩ =
          Out.ok (some 4660, ⟨strBytes "\"", []⟩)
      ∧ chars_next 100 ⟨strBytes "\"", []⟩ = Out.ok (none, ⟨[], []⟩)
      ∧ chars_next 100 ⟨strBytes "\\u{d800}x\"", []⟩ =
          Out.ok (some 120, ⟨strBytes "\"", []⟩)
      ∧ chars_next 100 ⟨strBytes "\\u{AB}c\"", []⟩ =
          Out.ok (some 66, ⟨strBytes "\x7dc\"", []⟩) := by
  refine ⟨?_, by rfl, by rfl, by rfl, by rfl⟩
  intro val rest
  simp [unicode_escape, isDigitByte]

/-- C8 counterexample: the claim says a first byte that starts no value
and is not an ASCII letter (a stray parenthesis, a control byte) yields
Err(InvalidIdentifier).  The dispatcher's catch-all arm is an unhandled
panic instead. -/
theorem c8_bad_byte_counterexample :
    next_any_item 41 ⟨strBytes " 2", []⟩ = Out.panicked
      ∧ next_any_item 1 ⟨[], []⟩ = Out.panicked
      ∧ (Out.panicked : Out (JRes × PState)) ≠
          Out.ok (Except.error SyntaxError.invalidIdentifier,
                  eat_until_whitespace ⟨strBytes " 2", []⟩) :=
  ⟨by rfl, by rfl, fun h => Out.noConfusion h⟩

/-- C8 amended: a first byte that is an ASCII letter other than n, t, f
consumes the identifier run to the next whitespace and returns
Err(InvalidIdentifier); a first byte that is none of digit, minus, n, t,
f, bracket, brace, quote, and not an ASCII letter, makes the dispatcher
panic. -/
theorem c8_dispatch_amended :
    (∀ (b : Nat) (st : PState),
        isAlphaByte b = true → b ≠ 110 → b ≠ 116 → b ≠ 102 →
        next_any_item b st =
          Out.ok (Except.error SyntaxError.invalidIdentifier,
                  eat_until_whitespace st))
      ∧ (∀ (b : Nat) (st : PState),
        isDigitByte b = false → b ≠ 45 → b ≠ 110 → b ≠ 116 → b ≠ 102 →
        b ≠ 91 → b ≠ 123 → b ≠ 34 → isAlphaByte b = false →
        next_any_item b st = Out.panicked) := by
  constructor
  · intro b st h hn ht hf
    have hb : (65 ≤ b ∧ b ≤ 90) ∨ (97 ≤ b ∧ b ≤ 122) := by
      simpa [isAlphaByte, Bool.or_eq_true, Bool.and_eq_true,
             decide_eq_true_iff] using h
    have h1 : isDigitByte b = false := by
      simp only [isDigitByte, Bool.and_eq_false_iff]
      rcases hb with ⟨h65, _⟩ | ⟨h97, _⟩ <;> simp <;> omega
    have h2 : b ≠ 45 := by omega
    have h3 : b ≠ 91 := by omega
    have h4 : b ≠ 123 := by omega
    have h5 : b ≠ 34 := by omega
    simp [next_any_item, h1, h2, h3, h4, h5, hn, ht, hf, h]
  · intro b st h1 h2 hn ht hf h3 h4 h5 ha
    simp [next_any_item, h1, h2, h3, h4, h5, hn, ht, hf, ha]

/-- Witness for C8's amended theorem: the unknown identifier starting with
the letter x, and the stray parenthesis that panics. -/
theorem c8_dispatch_amended_witness :
    isAlphaByte 120 = true
      ∧ next_any_item 120 ⟨[], []⟩ =
          Out.ok (Except.error SyntaxError.invalidIdentifier, ⟨[], []⟩)
      ∧ next_any_item 41 ⟨[], []⟩ = Out.panicked :=
  ⟨by decide,
   c8_dispatch_amended.1 120 ⟨[], []⟩ (by decide) (by decide) (by decide) (by decide),
   c8_dispatch_amended.2 41 ⟨[], []⟩ (by decide) (by decide) (by decide) (by decide)
     (by decide) (by decide) (by decide) (by decide) (by decide)⟩

/-- Helper: Number::from on a signed value yields the NegInt representation
only for strictly negative inputs. -/
theorem number_fromSigned_negInt (i v : Int)
    (h : Number.fromSigned i = ⟨NumRepr.negInt v⟩) : v < 0 := by
  by_cases hi : i < 0
  · simp only [Number.fromSigned, if_pos hi, Number.mk.injEq, NumRepr.negInt.injEq] at h
    omega
  · simp [Number.fromSigned, if_neg hi] at h

/-- C10: every NegInt Number is strictly negative.  Number::from for
signed inputs maps non-negative values to PosInt; unsigned and float
conversions never produce NegInt; and any Number produced by parse_number
whose representation is NegInt holds a negative value. -/
theorem c10_negint_strictly_negative :
    (∀ i v : Int, Number.fromSigned i = ⟨NumRepr.negInt v⟩ → v < 0)
      ∧ (∀ (u : Nat) (v : Int), Number.fromUnsigned u ≠ ⟨NumRepr.negInt v⟩)
      ∧ (∀ (l : List Nat) (v : Int), Number.fromFloat l ≠ ⟨NumRepr.negInt v⟩)
      ∧ (∀ (first : Nat) (st : PState) (nm : Number) (st' : PState) (v : Int),
        parse_number first st = Out.ok (nm, st') →
        nm = ⟨NumRepr.negInt v⟩ → v < 0) := by
  refine ⟨number_fromSigned_negInt, ?_, ?_, ?_⟩
  · intro u v
    simp [Number.fromUnsigned]
  · intro l v
    simp [Number.fromFloat]
  · intro first st nm st' v h hneg
    subst hneg
    rcases hna : num_accum st.input with ⟨acc, rem⟩
    simp only [parse_number, hna] at h
    cases hu : u64_parse (first :: acc) with
    | some n =>
      rw [hu] at h
      simp [Number.fromUnsigned] at h
    | none =>
      rw [hu] at h
      cases hi : i64_parse (first :: acc) with
      | some i =>
        rw [hi] at h
        simp only [Out.ok.injEq, Prod.mk.injEq] at h
        exact number_fromSigned_negInt i v h.1
      | none =>
        rw [hi] at h
        by_cases hf : f64_parse_ok (first :: acc) = true
        · simp [hf, Number.fromFloat] at h
        · simp [hf] at h

/-- Witness for C10: Number::from(-5) is NegInt(-5), which is negative. -/
theorem c10_negint_strictly_negative_witness :
    Number.fromSigned (-5) = ⟨NumRepr.negInt (-5)⟩ ∧ (-5 : Int) < 0 :=
  ⟨by decide, c10_negint_strictly_negative.1 (-5) (-5) (by decide)⟩

/-- Separator-interleaved concatenation: the expected shape of emitter
output, with sep between consecutive pieces and none before the first. -/
def sepcat (sep : List Nat) : List (List Nat) → List Nat
  | [] => []
  | [v] => v
  | v :: vs => v ++ sep ++ sepcat sep vs

/-- Same with the separator before every piece (the shape produced after
the first piece has been emitted). -/
def presep (sep : List Nat) : List (List Nat) → List Nat
  | [] => []
  | v :: vs => sep ++ v ++ presep sep vs

theorem sepcat_cons (sep v : List Nat) (vs : List (List Nat)) :
    sepcat sep (v :: vs) = v ++ presep sep vs := by
  induction vs generalizing v with
  | nil => simp [sepcat, presep]
  | cons w ws ih =>
    simp only [sepcat, presep, ih w]
    simp [List.append_assoc]

/-- Driving the top-level emitter over a list of values. -/
def Emitter.emitAll (e : Emitter) (vs : List (List Nat)) : Emitter :=
  vs.foldl Emitter.emit e

/-- Driving an array handle over a list of element values. -/
def EmitArray.emitAll (a : EmitArray) (vs : List (List Nat)) : EmitArray :=
  vs.foldl EmitArray.emit a

/-- Driving an object handle over a list of key-value pairs. -/
def EmitObject.emitAll (o : EmitObject) (ps : List (List Nat × List Nat)) :
    EmitObject :=
  ps.foldl (fun o p => EmitObject.emit o p.1 p.2) o

theorem emitter_emitAll_started (vs : List (List Nat)) :
    ∀ d : List Nat, Emitter.emitAll ⟨d, true⟩ vs = ⟨d ++ presep [10] vs, true⟩ := by
  induction vs with
  | nil => intro d; simp [Emitter.emitAll, presep]
  | cons v ws ih =>
    intro d
    have : Emitter.emit ⟨d, true⟩ v = ⟨d ++ [10] ++ v, true⟩ := by
      simp [Emitter.emit, Emitter.start]
    simp only [Emitter.emitAll, List.foldl_cons, this]
    have h2 := ih (d ++ [10] ++ v)
    simp only [Emitter.emitAll] at h2
    rw [h2]
    simp [presep, List.append_assoc]

theorem emitarray_emitAll_started (vs : List (List Nat)) :
    ∀ d : List Nat, EmitArray.emitAll ⟨d, true⟩ vs = ⟨d ++ presep [44] vs, true⟩ := by
  induction vs with
  | nil => intro d; simp [EmitArray.emitAll, presep]
  | cons v ws ih =>
    intro d
    have : EmitArray.emit ⟨d, true⟩ v = ⟨d ++ [44] ++ v, true⟩ := by
      simp [EmitArray.emit, EmitArray.start]
    simp only [EmitArray.emitAll, List.foldl_cons, this]
    have h2 := ih (d ++ [44] ++ v)
    simp only [EmitArray.emitAll] at h2
    rw [h2]
    simp [presep, List.append_assoc]

/-- One object pair as written to the sink: quoted byte-exact key, colon,
value bytes. -/
def pair_bytes (p : List Nat × List Nat) : List Nat :=
  str_write_to p.1 ++ [58] ++ p.2

theorem emitobject_emitAll_started (ps : List (List Nat × List Nat)) :
    ∀ d : List Nat,
      EmitObject.emitAll ⟨d, true⟩ ps = ⟨d ++ presep [44] (ps.map pair_bytes), true⟩ := by
  induction ps with
  | nil => intro d; simp [EmitObject.emitAll, presep]
  | cons p ws ih =>
    intro d
    have : EmitObject.emit ⟨d, true⟩ p.1 p.2 = ⟨d ++ [44] ++ pair_bytes p, true⟩ := by
      simp [EmitObject.emit, EmitObject.start, pair_bytes, List.append_assoc]
    simp only [EmitObject.emitAll, List.foldl_cons, this]
    have h2 := ih (d ++ [44] ++ pair_bytes p)
    simp only [EmitObject.emitAll] at h2
    rw [h2]
    simp [presep, List.append_assoc]

/-- C9: emitter output grammar.  A single EmitObject::emit(key, value)
writes a separating comma only when a pair was already written, then the
key as a quoted byte-exact copy (no escape encoding, whatever bytes the
key holds), a colon, and the value bytes.  Driving the top-level emitter
over values writes them separated by newlines (none before the first);
driving an array handle writes the opening bracket, the elements
separated by commas (none before the first), and the closing bracket on
drop; likewise an object handle with braces and quoted-key colon value
pairs.  No whitespace is inserted anywhere: the output is exactly the
concatenation of the listed tokens. -/
theorem c9_emitter_output_grammar :
    (∀ (o : EmitObject) (k v : List Nat),
        EmitObject.emit o k v =
          ⟨o.dst ++ (if o.started then [44] else []) ++ str_write_to k ++ [58] ++ v,
           true⟩)
      ∧ (∀ vs : List (List Nat), (Emitter.emitAll Emitter.new vs).dst = sepcat [10] vs)
      ∧ (∀ (d : List Nat) (vs : List (List Nat)),
        (EmitArray.emitAll (EmitArray.new d) vs).drop =
          d ++ [91] ++ sepcat [44] vs ++ [93])
      ∧ (∀ (d : List Nat) (ps : List (List Nat × List Nat)),
        (EmitObject.emitAll (EmitObject.new d) ps).drop =
          d ++ [123] ++ sepcat [44] (ps.map pair_bytes) ++ [125]) := by
  refine ⟨?_, ?_, ?_, ?_⟩
  · intro o k v
    rcases o with ⟨d, s⟩
    cases s <;> simp [EmitObject.emit, EmitObject.start, List.append_assoc]
  · intro vs
    cases vs with
    | nil => rfl
    | cons v ws =>
      have h1 : Emitter.emit Emitter.new v = ⟨v, true⟩ := by
        simp [Emitter.emit, Emitter.new, Emitter.start]
      simp only [Emitter.emitAll, List.foldl_cons, h1]
      have h2 := emitter_emitAll_started ws v
      simp only [Emitter.emitAll] at h2
      rw [h2, sepcat_cons]
  · intro d vs
    cases vs with
    | nil => simp [EmitArray.emitAll, EmitArray.new, EmitArray.drop, sepcat]
    | cons v ws =>
      have h1 : EmitArray.emit (EmitArray.new d) v = ⟨d ++ [91] ++ v, true⟩ := by
        simp [EmitArray.emit, EmitArray.new, EmitArray.start, List.append_assoc]
      simp only [EmitArray.emitAll, List.foldl_cons, h1]
      have h2 := emitarray_emitAll_started ws (d ++ [91] ++ v)
      simp only [EmitArray.emitAll] at h2
      rw [h2]
      simp [EmitArray.drop, sepcat_cons, List.append_assoc]
  · intro d ps
    cases ps with
    | nil => simp [EmitObject.emitAll, EmitObject.new, EmitObject.drop, sepcat]
    | cons p ws =>
      have h1 : EmitObject.emit (EmitObject.new d) p.1 p.2 =
          ⟨d ++ [123] ++ pair_bytes p, true⟩ := by
        simp [EmitObject.emit, EmitObject.new, EmitObject.start, pair_bytes,
              List.append_assoc]
      simp only [EmitObject.emitAll, List.foldl_cons, h1]
      have h2 := emitobject_emitAll_started ws (d ++ [123] ++ pair_bytes p)
      simp only [EmitObject.emitAll] at h2
      rw [h2]
      simp [EmitObject.drop, sepcat_cons, List.append_assoc]

/-!
Well-formed JSON values and their canonical (whitespace-free)
serialization, used to state deep-skip correctness for arbitrary nesting
depth.  Strings and keys are restricted to plain bytes (no quote, no
backslash); numbers to plain digit runs. -/

mutual

inductive JTree where
  | null
  | tru
  | fls
  | num (d : Nat) (ds : List Nat)
  | str (s : List Nat)
  | arr (es : JList)
  | obj (ps : JPairs)

inductive JList where
  | nil
  | cons (hd : JTree) (tl : JList)

inductive JPairs where
  | pnil
  | pcons (k : List Nat) (v : JTree) (tl : JPairs)

end

mutual

/-- Canonical serialization of a value. -/
def ser : JTree → List Nat
  | JTree.null => [110, 117, 108, 108]
  | JTree.tru => [116, 114, 117, 101]
  | JTree.fls => [102, 97, 108, 115, 101]
  | JTree.num d ds => d :: ds
  | JTree.str s => 34 :: (s ++ [34])
  | JTree.arr es => 91 :: (serElems es ++ [93])
  | JTree.obj ps => 123 :: (serPairs ps ++ [125])

/-- Elements of an array body (no leading separator). -/
def serElems : JList → List Nat
  | JList.nil => []
  | JList.cons e tl => ser e ++ serElemsTail tl

/-- Remaining elements after the first (each preceded by a comma). -/
def serElemsTail : JList → List Nat
  | JList.nil => []
  | JList.cons e tl => 44 :: (ser e ++ serElemsTail tl)

/-- One key-value pair: quoted key, colon, value. -/
def serPair (k : List Nat) (v : JTree) : List Nat :=
  34 :: (k ++ [34]) ++ 58 :: ser v

/-- Pairs of an object body (no leading separator). -/
def serPairs : JPairs → List Nat
  | JPairs.pnil => []
  | JPairs.pcons k v tl => serPair k v ++ serPairsTail tl

/-- Remaining pairs after the first (each preceded by a comma). -/
def serPairsTail : JPairs → List Nat
  | JPairs.pnil => []
  | JPairs.pcons k v tl => 44 :: (serPair k v ++ serPairsTail tl)

end

/-- A byte that may appear in a plain (escape-free) string body or key. -/
def plainByte (b : Nat) : Bool :=
  !(b = 34 || b = 92)

mutual

/-- Well-formed value: digit-run numbers, plain strings, recursively
well-formed children. -/
def wfT : JTree → Bool
  | JTree.null => true
  | JTree.tru => true
  | JTree.fls => true
  | JTree.num d ds => isDigitByte d && allDigits ds
  | JTree.str s => s.all plainByte
  | JTree.arr es => wfL es
  | JTree.obj ps => wfP ps

def wfL : JList → Bool
  | JList.nil => true
  | JList.cons e tl => wfT e && wfL tl

def wfP : JPairs → Bool
  | JPairs.pnil => true
  | JPairs.pcons k v tl => k.all plainByte && wfT v && wfP tl

end

/-- True unless the value is a string; object pairs whose value is a
string are the poison case for deferred skipping (see skipCleanT). -/
def notStr : JTree → Bool
  | JTree.str _ => false
  | _ => true

mutual

/-- Skip-clean: the value contains no object pair whose value is a
string.  Skipping such a pair runs skip_obj_value's String arm, which
leaves a spurious Skip::String enqueued (the still-armed ParseString is
dropped after p.skip()); deferred skipping is only faithful to the
lexical structure on skip-clean values. -/
def skipCleanT : JTree → Bool
  | JTree.null => true
  | JTree.tru => true
  | JTree.fls => true
  | JTree.num _ _ => true
  | JTree.str _ => true
  | JTree.arr es => skipCleanL es
  | JTree.obj ps => skipCleanP ps

def skipCleanL : JList → Bool
  | JList.nil => true
  | JList.cons e tl => skipCleanT e && skipCleanL tl

def skipCleanP : JPairs → Bool
  | JPairs.pnil => true
  | JPairs.pcons _ v tl => notStr v && skipCleanT v && skipCleanP tl

end

/-- First byte of a serialized value. -/
def serHead : JTree → Nat
  | JTree.null => 110
  | JTree.tru => 116
  | JTree.fls => 102
  | JTree.num d _ => d
  | JTree.str _ => 34
  | JTree.arr _ => 91
  | JTree.obj _ => 123

/-- Bytes of a serialized value after the first. -/
def serTail : JTree → List Nat
  | JTree.null => [117, 108, 108]
  | JTree.tru => [114, 117, 101]
  | JTree.fls => [97, 108, 115, 101]
  | JTree.num _ ds => ds
  | JTree.str s => s ++ [34]
  | JTree.arr es => serElems es ++ [93]
  | JTree.obj ps => serPairs ps ++ [125]

theorem ser_eq (t : JTree) : ser t = serHead t :: serTail t := by
  cases t <;> simp [ser, serHead, serTail]

/-- What remains of a value after next_any_item dispatched on its first
byte: nothing for immediate values, the unread body for handles. -/
def valRem : JTree → List Nat
  | JTree.null => []
  | JTree.tru => []
  | JTree.fls => []
  | JTree.num _ _ => []
  | JTree.str s => s ++ [34]
  | JTree.arr es => serElems es ++ [93]
  | JTree.obj ps => serPairs ps ++ [125]

/-- The skip job the Drop impl of a value's handle would enqueue; none for
immediate values. -/
def treeJob : JTree → Option Skip
  | JTree.str _ => some Skip.string
  | JTree.arr _ => some Skip.array
  | JTree.obj _ => some Skip.object
  | _ => none

/-- The queue contents after dropping a fresh handle for the value. -/
def treePend (t : JTree) : List Skip :=
  match treeJob t with
  | some s => [s]
  | none => []

/-- A byte the number accumulator keeps eating. -/
def isAccByte (b : Nat) : Bool :=
  isDigitByte b || b = 46 || b = 101 || b = 43 || b = 45

theorem skip_string_plain (s : List Nat) (h : s.all plainByte = true) (rest : List Nat) :
    skip_string_from false (s ++ 34 :: rest) = rest := by
  induction s with
  | nil => simp [skip_string_from]
  | cons c cs ih =>
    simp only [List.all_cons, Bool.and_eq_true] at h
    have hc : c ≠ 34 ∧ c ≠ 92 := by
      have h1 := h.1
      simp only [plainByte, Bool.not_eq_eq_eq_not, Bool.not_true,
                 Bool.or_eq_false_iff, decide_eq_false_iff_not] at h1
      exact h1
    simp [skip_string_from, hc.1, hc.2, ih h.2]

theorem parse_ident_exact (ident : List Nat) (res : JVal) (rest : List Nat)
    (sk : List Skip) :
    parse_ident ident res ⟨ident ++ rest, sk⟩ = (Except.ok res, ⟨rest, sk⟩) := by
  induction ident with
  | nil => simp [parse_ident]
  | cons b tl ih => simp [parse_ident, ih]

theorem num_accum_digits (ds : List Nat) (h : allDigits ds = true) (b : Nat)
    (hb : isAccByte b = false) (rest : List Nat) :
    num_accum (ds ++ b :: rest) = (ds, b :: rest) := by
  induction ds with
  | nil =>
    simp only [isAccByte, Bool.or_eq_false_iff, decide_eq_false_iff_not] at hb
    simp only [List.nil_append, num_accum]
    rw [if_neg]
    simp only [hb.1.1.1.1, Bool.false_or]
    simp [hb.1.1.1.2, hb.1.1.2, hb.1.2, hb.2]
  | cons d ds' ih =>
    simp only [allDigits, List.all_cons, Bool.and_eq_true] at h
    have h2 : num_accum (ds' ++ b :: rest) = (ds', b :: rest) :=
      ih (by simpa [allDigits] using h.2)
    simp [num_accum, h.1, h2]

theorem takeDigits_all (s : List Nat) (h : allDigits s = true) :
    takeDigits s = (s, []) := by
  induction s with
  | nil => simp [takeDigits]
  | cons d ds ih =>
    simp only [allDigits, List.all_cons, Bool.and_eq_true] at h
    simp only [takeDigits, if_pos h.1]
    rw [show allDigits ds = true from h.2] at ih
    rw [ih rfl]

theorem digits_f64_ok (d : Nat) (ds : List Nat) (hd : isDigitByte d = true)
    (hds : allDigits ds = true) : f64_parse_ok (d :: ds) = true := by
  have hall : allDigits (d :: ds) = true := by
    simp [allDigits, hd]
    simpa [allDigits] using hds
  have htd := takeDigits_all (d :: ds) hall
  have hd43 : d ≠ 43 := by
    simp only [isDigitByte, Bool.and_eq_true, decide_eq_true_iff] at hd
    omega
  have hd45 : d ≠ 45 := by
    simp only [isDigitByte, Bool.and_eq_true, decide_eq_true_iff] at hd
    omega
  have hnum : f64_number_ok (d :: ds) = true := by
    rw [f64_number_ok, htd]
  unfold f64_parse_ok
  split
  · rename_i rest heq
    rw [List.cons.injEq] at heq
    exact absurd heq.1 hd43
  · rename_i rest heq
    rw [List.cons.injEq] at heq
    exact absurd heq.1 hd45
  · exact hnum

theorem serHead_not_sep (t : JTree) (h : wfT t = true) :
    isWsByte (serHead t) = false ∧ serHead t ≠ 44 ∧ serHead t ≠ 93 ∧
      serHead t ≠ 125 ∧ serHead t ≠ 58 := by
  cases t with
  | num d ds =>
    simp only [wfT, Bool.and_eq_true] at h
    have := h.1
    simp only [isDigitByte, Bool.and_eq_true, decide_eq_true_iff] at this
    simp only [serHead, isWsByte]
    refine ⟨?_, by omega, by omega, by omega, by omega⟩
    simp only [Bool.or_eq_false_iff, decide_eq_false_iff_not]
    omega
  | _ => simp [serHead, isWsByte]

theorem eat_whitespace_list_nows (b : Nat) (h : isWsByte b = false) (rest : List Nat) :
    eat_whitespace_list (b :: rest) = b :: rest := by
  simp [eat_whitespace_list, h]

/-- Dispatching the first byte of a well-formed serialized value consumes
exactly the immediate part (everything for scalars, nothing beyond the
opening delimiter for handles), provided the following byte does not
extend a number literal.  Dropping the resulting Json enqueues exactly
the value's skip job. -/
theorem value_dispatch (t : JTree) (h : wfT t = true) (b : Nat)
    (hb : isAccByte b = false) (rest : List Nat) :
    ∃ j : JVal,
      next_any_item (serHead t) ⟨serTail t ++ b :: rest, []⟩ =
        Out.ok (Except.ok j, ⟨valRem t ++ b :: rest, []⟩)
      ∧ (∀ inp : List Nat, drop_jres (Except.ok j) ⟨inp, []⟩ = ⟨inp, treePend t⟩)
      ∧ (∀ (f : Nat) (st' : PState), json_exhaust (f + 1) j st' =
          match t with
          | JTree.str _ => Out.ok (add_skip Skip.string (skip_string st'))
          | JTree.arr _ => arr_exhaust f ⟨false, false⟩ st'
          | JTree.obj _ => obj_exhaust f ⟨false⟩ st'
          | _ => Out.ok st') := by
  cases t with
  | null =>
    refine ⟨JVal.null, ?_, by intro inp; simp [drop_jres, treeJob, treePend, add_skip],
            by intro f st'; simp [json_exhaust]⟩
    have h1 : next_any_item 110 ⟨[117, 108, 108] ++ b :: rest, []⟩ =
        Out.ok (parse_ident [117, 108, 108] JVal.null
                  ⟨[117, 108, 108] ++ b :: rest, []⟩) := rfl
    rw [show serHead JTree.null = 110 from rfl,
        show serTail JTree.null = [117, 108, 108] from rfl, h1,
        parse_ident_exact]
    rfl
  | tru =>
    refine ⟨JVal.bool true, ?_, by intro inp; simp [drop_jres, treeJob, treePend, add_skip],
            by intro f st'; simp [json_exhaust]⟩
    have h1 : next_any_item 116 ⟨[114, 117, 101] ++ b :: rest, []⟩ =
        Out.ok (parse_ident [114, 117, 101] (JVal.bool true)
                  ⟨[114, 117, 101] ++ b :: rest, []⟩) := rfl
    rw [show serHead JTree.tru = 116 from rfl,
        show serTail JTree.tru = [114, 117, 101] from rfl, h1,
        parse_ident_exact]
    rfl
  | fls =>
    refine ⟨JVal.bool false, ?_, by intro inp; simp [drop_jres, treeJob, treePend, add_skip],
            by intro f st'; simp [json_exhaust]⟩
    have h1 : next_any_item 102 ⟨[97, 108, 115, 101] ++ b :: rest, []⟩ =
        Out.ok (parse_ident [97, 108, 115, 101] (JVal.bool false)
                  ⟨[97, 108, 115, 101] ++ b :: rest, []⟩) := rfl
    rw [show serHead JTree.fls = 102 from rfl,
        show serTail JTree.fls = [97, 108, 115, 101] from rfl, h1,
        parse_ident_exact]
    rfl
  | num d ds =>
    simp only [wfT, Bool.and_eq_true] at h
    have hd := h.1
    have hds := h.2
    have hacc := num_accum_digits ds hds b hb rest
    cases hu : u64_parse (d :: ds) with
    | some n =>
      refine ⟨JVal.number (Number.fromUnsigned n), ?_,
              by intro inp; simp [drop_jres, treeJob, treePend, add_skip],
              by intro f st'; simp [json_exhaust]⟩
      simp [next_any_item, serHead, serTail, valRem, hd, parse_number, hacc, hu]
    | none =>
      cases hi : i64_parse (d :: ds) with
      | some i =>
        refine ⟨JVal.number (Number.fromSigned i), ?_,
                by intro inp; simp [drop_jres, treeJob, treePend, add_skip],
                by intro f st'; simp [json_exhaust]⟩
        simp [next_any_item, serHead, serTail, valRem, hd, parse_number, hacc, hu, hi]
      | none =>
        have hf := digits_f64_ok d ds hd hds
        refine ⟨JVal.number (Number.fromFloat (d :: ds)), ?_,
                by intro inp; simp [drop_jres, treeJob, treePend, add_skip],
                by intro f st'; simp [json_exhaust]⟩
        simp [next_any_item, serHead, serTail, valRem, hd, parse_number, hacc, hu,
              hi, hf]
  | str s =>
    exact ⟨JVal.stringH, rfl, by intro inp; simp [drop_jres, treeJob, treePend, add_skip],
            by intro f st'; simp [json_exhaust]⟩
  | arr es =>
    exact ⟨JVal.arrayH, rfl, by intro inp; simp [drop_jres, treeJob, treePend, add_skip],
            by intro f st'; simp [json_exhaust]⟩
  | obj ps =>
    exact ⟨JVal.objectH, rfl, by intro inp; simp [drop_jres, treeJob, treePend, add_skip],
            by intro f st'; simp [json_exhaust]⟩

/-- The pending queue pend, drained by do_skips, consumes exactly the
prefix P of the input and leaves the queue empty (for every sufficiently
large fuel). -/
def DSOk (pend : List Skip) (P : List Nat) : Prop :=
  ∃ F, ∀ f, F ≤ f → ∀ X, do_skips f ⟨P ++ X, pend⟩ = Out.ok ⟨X, []⟩

/-- A nonempty continuation whose first byte cannot extend a number
literal (in serialized context always a comma or a closing delimiter). -/
def boundary (X : List Nat) : Prop :=
  ∃ b l, X = b :: l ∧ isAccByte b = false

/-- DSOk restricted to boundary continuations; needed for ObjectValue
jobs, whose trailing number values are not self-delimiting. -/
def DSOkB (pend : List Skip) (P : List Nat) : Prop :=
  ∃ F, ∀ f, F ≤ f → ∀ X, boundary X →
    do_skips f ⟨P ++ X, pend⟩ = Out.ok ⟨X, []⟩

/-- Driving a fresh ParseArray over the serialized remainder of an array
body (all elements then the closing bracket), after a draining prefix,
consumes exactly that remainder. -/
def ArrFirstP (es : JList) : Prop :=
  ∀ pend P, DSOk pend P → ∃ F, ∀ f, F ≤ f → ∀ rest,
    arr_exhaust f ⟨false, false⟩ ⟨P ++ (serElems es ++ 93 :: rest), pend⟩ =
      Out.ok ⟨rest, []⟩

/-- Same, for a ParseArray that has already yielded an element (so each
remaining element is preceded by a comma). -/
def ArrTailP (es : JList) : Prop :=
  ∀ pend P, DSOk pend P → ∃ F, ∀ f, F ≤ f → ∀ rest,
    arr_exhaust f ⟨false, true⟩ ⟨P ++ (serElemsTail es ++ 93 :: rest), pend⟩ =
      Out.ok ⟨rest, []⟩

/-- Driving a fresh ParseObject over the serialized remainder of an
object body. -/
def ObjFirstP (ps : JPairs) : Prop :=
  ∀ pend P, DSOkB pend P → ∃ F, ∀ f, F ≤ f → ∀ rest,
    obj_exhaust f ⟨false⟩ ⟨P ++ (serPairs ps ++ 125 :: rest), pend⟩ =
      Out.ok ⟨rest, []⟩

/-- Same, after the first pair (remaining pairs preceded by commas). -/
def ObjTailP (ps : JPairs) : Prop :=
  ∀ pend P, DSOkB pend P → ∃ F, ∀ f, F ≤ f → ∀ rest,
    obj_exhaust f ⟨false⟩ ⟨P ++ (serPairsTail ps ++ 125 :: rest), pend⟩ =
      Out.ok ⟨rest, []⟩

theorem DSOk.toB {pend : List Skip} {P : List Nat} (h : DSOk pend P) :
    DSOkB pend P := by
  obtain ⟨F, hF⟩ := h
  exact ⟨F, fun f hf X _ => hF f hf X⟩

theorem DSOk_nil : DSOk [] [] := by
  refine ⟨1, ?_⟩
  intro f hf X
  obtain ⟨g, rfl⟩ : ∃ g, f = g + 1 := ⟨f - 1, by omega⟩
  simp [do_skips]

theorem run_skips_one_ok (j : Skip) (st st' : PState) (i : Nat)
    (hstep :
      (match j with
       | Skip.string => Out.ok (skip_string { st with skips := [] })
       | Skip.array => skip_array (i + 1) { st with skips := [] }
       | Skip.object => skip_obj (i + 1) { st with skips := [] }
       | Skip.objectValue kc =>
         skip_obj_value (i + 1) kc { st with skips := [] }) = Out.ok st') :
    run_skips (i + 2) [j] { st with skips := [] } = Out.ok st' := by
  cases j <;>
    (simp only [run_skips] at hstep ⊢
     rw [hstep])

theorem DSOk_of_array (P : List Nat) (Fs : Nat)
    (hstep : ∀ f, Fs ≤ f → ∀ X,
      skip_array f (⟨P ++ X, []⟩ : PState) = Out.ok ⟨X, []⟩) :
    DSOk [Skip.array] P := by
  refine ⟨Fs + 3, ?_⟩
  intro f hf X
  obtain ⟨i, rfl⟩ : ∃ i, f = i + 3 := ⟨f - 3, by omega⟩
  simp only [do_skips, List.isEmpty_cons, Bool.false_eq_true, if_false]
  exact run_skips_one_ok Skip.array ⟨P ++ X, [Skip.array]⟩ ⟨X, []⟩ i
    (hstep (i + 1) (by omega) X)

theorem DSOk_of_object (P : List Nat) (Fs : Nat)
    (hstep : ∀ f, Fs ≤ f → ∀ X,
      skip_obj f (⟨P ++ X, []⟩ : PState) = Out.ok ⟨X, []⟩) :
    DSOk [Skip.object] P := by
  refine ⟨Fs + 3, ?_⟩
  intro f hf X
  obtain ⟨i, rfl⟩ : ∃ i, f = i + 3 := ⟨f - 3, by omega⟩
  simp only [do_skips, List.isEmpty_cons, Bool.false_eq_true, if_false]
  exact run_skips_one_ok Skip.object ⟨P ++ X, [Skip.object]⟩ ⟨X, []⟩ i
    (hstep (i + 1) (by omega) X)

theorem DSOkB_of_objectValue (kc : Bool) (P : List Nat) (Fs : Nat)
    (hstep : ∀ f, Fs ≤ f → ∀ X, boundary X →
      skip_obj_value f kc (⟨P ++ X, []⟩ : PState) = Out.ok ⟨X, []⟩) :
    DSOkB [Skip.objectValue kc] P := by
  refine ⟨Fs + 3, ?_⟩
  intro f hf X hX
  obtain ⟨i, rfl⟩ : ∃ i, f = i + 3 := ⟨f - 3, by omega⟩
  simp only [do_skips, List.isEmpty_cons, Bool.false_eq_true, if_false]
  exact run_skips_one_ok (Skip.objectValue kc) ⟨P ++ X, [Skip.objectValue kc]⟩
    ⟨X, []⟩ i (hstep (i + 1) (by omega) X hX)

theorem DSOk_of_string0 (P : List Nat)
    (hstep : ∀ X, skip_string (⟨P ++ X, []⟩ : PState) = (⟨X, []⟩ : PState)) :
    DSOk [Skip.string] P := by
  refine ⟨3, ?_⟩
  intro f hf X
  obtain ⟨i, rfl⟩ : ∃ i, f = i + 3 := ⟨f - 3, by omega⟩
  simp only [do_skips, List.isEmpty_cons, Bool.false_eq_true, if_false]
  exact run_skips_one_ok Skip.string ⟨P ++ X, [Skip.string]⟩ ⟨X, []⟩ i
    (by rw [show ({ input := P ++ X, skips := [Skip.string] } : PState) =
              (⟨P ++ X, [Skip.string]⟩ : PState) from rfl]
        exact congrArg Out.ok (hstep X))

theorem DSOk_string (s : List Nat) (hs : s.all plainByte = true) :
    DSOk [Skip.string] (s ++ [34]) := by
  refine DSOk_of_string0 (s ++ [34]) ?_
  intro X
  simp only [skip_string]
  rw [show (s ++ [34]) ++ X = s ++ 34 :: X by simp]
  rw [skip_string_plain s hs X]

theorem push_treeJob (t : JTree) (inp : List Nat) :
    (match treeJob t with
     | some s => add_skip s (⟨inp, []⟩ : PState)
     | none => (⟨inp, []⟩ : PState)) = ⟨inp, treePend t⟩ := by
  cases htj : treeJob t <;> simp [treePend, htj, add_skip]

theorem elems_tail_split (tl : JList) (rest : List Nat) :
    ∃ b rest', serElemsTail tl ++ 93 :: rest = b :: rest' ∧ isAccByte b = false := by
  cases tl with
  | nil => exact ⟨93, rest, by simp [serElemsTail], by decide⟩
  | cons e tl' =>
    exact ⟨44, ser e ++ serElemsTail tl' ++ 93 :: rest,
           by simp [serElemsTail], by decide⟩

theorem pairs_tail_split (tl : JPairs) (rest : List Nat) :
    ∃ b rest', serPairsTail tl ++ 125 :: rest = b :: rest' ∧ isAccByte b = false := by
  cases tl with
  | pnil => exact ⟨125, rest, by simp [serPairsTail], by decide⟩
  | pcons k v tl' =>
    exact ⟨44, serPair k v ++ serPairsTail tl' ++ 125 :: rest,
           by simp [serPairsTail], by decide⟩

theorem arr_exhaust_step (f : Nat) (a : ParseArray) (st : PState) :
    arr_exhaust (f + 1) a st =
      match arr_next f a st with
      | Out.ok (none, a', st') => Out.ok (drop_array a' st')
      | Out.ok (some r, a', st') => arr_exhaust f a' (drop_jres r st')
      | Out.panicked => Out.panicked
      | Out.nofuel => Out.nofuel := rfl

theorem obj_exhaust_step (f : Nat) (o : ParseObject) (st : PState) :
    obj_exhaust (f + 1) o st =
      match obj_next f o st with
      | Out.ok (none, o', st') => Out.ok (drop_object o' st')
      | Out.ok (some _, o', st') =>
        obj_exhaust f o' (add_skip (Skip.objectValue false) st')
      | Out.panicked => Out.panicked
      | Out.nofuel => Out.nofuel := rfl

theorem arr_next_notended (f : Nat) (nc : Bool) (st : PState) :
    arr_next (f + 1) ⟨false, nc⟩ st =
      match do_skips f st with
      | Out.ok st1 => arr_loop f ⟨false, nc⟩ st1
      | Out.panicked => Out.panicked
      | Out.nofuel => Out.nofuel := rfl

theorem obj_next_notended (f : Nat) (st : PState) :
    obj_next (f + 1) ⟨false⟩ st =
      match do_skips f st with
      | Out.ok st1 => obj_loop f ⟨false⟩ st1
      | Out.panicked => Out.panicked
      | Out.nofuel => Out.nofuel := rfl

theorem skip_array_step (f : Nat) (st : PState) :
    skip_array (f + 1) st = arr_exhaust f ⟨false, false⟩ st := rfl

theorem skip_obj_step (f : Nat) (st : PState) :
    skip_obj (f + 1) st = obj_exhaust f ⟨false⟩ st := rfl

theorem skip_obj_value_step (f : Nat) (kc : Bool) (st : PState) :
    skip_obj_value (f + 1) kc st =
      match read_value f kc st with
      | Out.ok (Except.ok v, st') => json_exhaust f v st'
      | Out.ok (Except.error _, st') => skip_obj_value f kc st'
      | Out.panicked => Out.panicked
      | Out.nofuel => Out.nofuel := rfl

theorem arr_loop_close (f : Nat) (a : ParseArray) (tail : List Nat) (sk : List Skip) :
    arr_loop (f + 1) a ⟨93 :: tail, sk⟩ =
      Out.ok (none, { a with ended := true }, ⟨tail, sk⟩) := rfl

theorem arr_loop_comma_continue (f : Nat) (tail : List Nat) (sk : List Skip) :
    arr_loop (f + 1) ⟨false, true⟩ ⟨44 :: tail, sk⟩ =
      arr_loop f ⟨false, false⟩ ⟨tail, sk⟩ := rfl

theorem arr_loop_dispatch (f : Nat) (bb : Nat) (tail : List Nat) (sk : List Skip)
    (h93 : bb ≠ 93) (h44 : bb ≠ 44) (hws : isWsByte bb = false) :
    arr_loop (f + 1) ⟨false, false⟩ ⟨bb :: tail, sk⟩ =
      match next_any_item bb ⟨tail, sk⟩ with
      | Out.ok (r, st') => Out.ok (some r, ⟨false, true⟩, st')
      | Out.panicked => Out.panicked
      | Out.nofuel => Out.nofuel := by
  simp only [arr_loop]
  rw [if_neg (by simpa using h93), if_neg (by simpa using h44),
      if_neg (by simp [hws])]
  rfl

theorem obj_loop_close (f : Nat) (o : ParseObject) (tail : List Nat) (sk : List Skip) :
    obj_loop (f + 1) o ⟨125 :: tail, sk⟩ =
      Out.ok (none, { o with ended := true }, ⟨tail, sk⟩) := rfl

theorem obj_loop_pair (f : Nat) (o : ParseObject) (tail : List Nat) (sk : List Skip) :
    obj_loop (f + 1) o ⟨34 :: tail, sk⟩ = Out.ok (some (), o, ⟨tail, sk⟩) := rfl

theorem obj_loop_comma (f : Nat) (o : ParseObject) (tail : List Nat) (sk : List Skip) :
    obj_loop (f + 1) o ⟨44 :: tail, sk⟩ = obj_loop f o ⟨tail, sk⟩ := rfl

theorem read_value_ser (k : List Nat) (hk : k.all plainByte = true) (v : JTree)
    (hwf : wfT v = true) (b : Nat) (l : List Nat) (f : Nat) :
    read_value (f + 1) false ⟨((k ++ [34]) ++ 58 :: ser v) ++ b :: l, []⟩ =
      next_any_item (serHead v) ⟨serTail v ++ b :: l, []⟩ := by
  have e1 : skip_string (⟨k ++ 34 :: 58 :: (ser v ++ b :: l), []⟩ : PState) =
      ⟨58 :: (ser v ++ b :: l), []⟩ := by
    simp only [skip_string]
    rw [skip_string_plain k hk]
  have e2 : eat_whitespace (⟨58 :: (ser v ++ b :: l), []⟩ : PState) =
      ⟨58 :: (ser v ++ b :: l), []⟩ := by
    simp only [eat_whitespace]
    rw [eat_whitespace_list_nows 58 (by decide)]
  have e3 : eat_whitespace (⟨ser v ++ b :: l, []⟩ : PState) =
      ⟨serHead v :: (serTail v ++ b :: l), []⟩ := by
    rw [ser_eq v]
    simp only [eat_whitespace, List.cons_append]
    rw [eat_whitespace_list_nows _ (serHead_not_sep v hwf).1]
  simp [read_value, e1, e2, e3]

/-- Deep-skip correctness, by strong induction on the size of the
well-formed value: every skip job consumes exactly the serialized
remainder of its value, and driving a ParseArray or ParseObject handle
over a serialized body consumes exactly that body, draining pending
skips first, at any nesting depth. -/
theorem deep_skip_all (n : Nat) :
    (∀ t : JTree, sizeOf t ≤ n → wfT t = true → skipCleanT t = true →
        DSOk (treePend t) (valRem t))
      ∧ (∀ (k : List Nat) (v : JTree), sizeOf v ≤ n → k.all plainByte = true →
        wfT v = true → skipCleanT v = true → notStr v = true →
        DSOkB [Skip.objectValue false] ((k ++ [34]) ++ 58 :: ser v))
      ∧ (∀ es : JList, sizeOf es ≤ n → wfL es = true → skipCleanL es = true →
        ArrFirstP es)
      ∧ (∀ es : JList, sizeOf es ≤ n → wfL es = true → skipCleanL es = true →
        ArrTailP es)
      ∧ (∀ ps : JPairs, sizeOf ps ≤ n → wfP ps = true → skipCleanP ps = true →
        ObjFirstP ps)
      ∧ (∀ ps : JPairs, sizeOf ps ≤ n → wfP ps = true → skipCleanP ps = true →
        ObjTailP ps) := by
  induction n using Nat.strong_induction_on with
  | _ n ih =>
  refine ⟨?_, ?_, ?_, ?_, ?_, ?_⟩
  -- Part 1: SkipVal
  · intro t hsz hwf hsc
    cases t with
    | null => simpa [treePend, treeJob, valRem] using DSOk_nil
    | tru => simpa [treePend, treeJob, valRem] using DSOk_nil
    | fls => simpa [treePend, treeJob, valRem] using DSOk_nil
    | num d ds => simpa [treePend, treeJob, valRem] using DSOk_nil
    | str s =>
      have hs : s.all plainByte = true := by simpa [wfT] using hwf
      simpa [treePend, treeJob, valRem] using DSOk_string s hs
    | arr es =>
      have hwfes : wfL es = true := by simpa [wfT] using hwf
      have hsces : skipCleanL es = true := by simpa [skipCleanT] using hsc
      have hsp : sizeOf (JTree.arr es) = 1 + sizeOf es := by simp
      have IH := ih (n - 1) (by omega)
      obtain ⟨F1, h1⟩ := IH.2.2.1 es (by omega) hwfes hsces [] [] DSOk_nil
      rw [show treePend (JTree.arr es) = [Skip.array] from rfl,
          show valRem (JTree.arr es) = serElems es ++ [93] from rfl]
      refine DSOk_of_array _ (F1 + 1) ?_
      intro f hf X
      obtain ⟨g, rfl⟩ : ∃ g, f = g + 1 := ⟨f - 1, by omega⟩
      rw [skip_array_step]
      rw [show ((serElems es ++ [93]) ++ X : List Nat)
            = [] ++ (serElems es ++ 93 :: X) by simp]
      exact h1 g (by omega) X
    | obj ps =>
      have hwfps : wfP ps = true := by simpa [wfT] using hwf
      have hscps : skipCleanP ps = true := by simpa [skipCleanT] using hsc
      have hsp : sizeOf (JTree.obj ps) = 1 + sizeOf ps := by simp
      have IH := ih (n - 1) (by omega)
      obtain ⟨F1, h1⟩ := IH.2.2.2.2.1 ps (by omega) hwfps hscps [] [] DSOk_nil.toB
      rw [show treePend (JTree.obj ps) = [Skip.object] from rfl,
          show valRem (JTree.obj ps) = serPairs ps ++ [125] from rfl]
      refine DSOk_of_object _ (F1 + 1) ?_
      intro f hf X
      obtain ⟨g, rfl⟩ : ∃ g, f = g + 1 := ⟨f - 1, by omega⟩
      rw [skip_obj_step]
      rw [show ((serPairs ps ++ [125]) ++ X : List Nat)
            = [] ++ (serPairs ps ++ 125 :: X) by simp]
      exact h1 g (by omega) X
  -- Part 2: SOVal
  · intro ky v hsz hk hwf hsc hns
    cases v with
    | arr es =>
      have hwfes : wfL es = true := by simpa [wfT] using hwf
      have hsces : skipCleanL es = true := by simpa [skipCleanT] using hsc
      have hsp : sizeOf (JTree.arr es) = 1 + sizeOf es := by simp
      have IH := ih (n - 1) (by omega)
      obtain ⟨F1, h1⟩ := IH.2.2.1 es (by omega) hwfes hsces [] [] DSOk_nil
      refine DSOkB_of_objectValue false _ (F1 + 4) ?_
      intro f hf X hX
      obtain ⟨b, l, rfl, hb⟩ := hX
      obtain ⟨g1, rfl⟩ : ∃ g, f = g + 1 := ⟨f - 1, by omega⟩
      obtain ⟨j, hdisp, hdropj, hjx⟩ := value_dispatch (JTree.arr es) hwf b hb l
      rw [skip_obj_value_step]
      obtain ⟨m, rfl⟩ : ∃ m, g1 = m + 1 := ⟨g1 - 1, by omega⟩
      rw [read_value_ser ky hk (JTree.arr es) hwf b l m, hdisp]
      show json_exhaust (m + 1) j
          (⟨valRem (JTree.arr es) ++ b :: l, []⟩ : PState) =
        Out.ok (⟨b :: l, []⟩ : PState)
      rw [hjx m]
      show arr_exhaust m ⟨false, false⟩
          (⟨valRem (JTree.arr es) ++ b :: l, []⟩ : PState) = Out.ok ⟨b :: l, []⟩
      rw [show (⟨valRem (JTree.arr es) ++ b :: l, []⟩ : PState)
            = ⟨[] ++ (serElems es ++ 93 :: (b :: l)), []⟩ by simp [valRem]]
      exact h1 m (by omega) (b :: l)
    | obj ps =>
      have hwfps : wfP ps = true := by simpa [wfT] using hwf
      have hscps : skipCleanP ps = true := by simpa [skipCleanT] using hsc
      have hsp : sizeOf (JTree.obj ps) = 1 + sizeOf ps := by simp
      have IH := ih (n - 1) (by omega)
      obtain ⟨F1, h1⟩ := IH.2.2.2.2.1 ps (by omega) hwfps hscps [] [] DSOk_nil.toB
      refine DSOkB_of_objectValue false _ (F1 + 4) ?_
      intro f hf X hX
      obtain ⟨b, l, rfl, hb⟩ := hX
      obtain ⟨g1, rfl⟩ : ∃ g, f = g + 1 := ⟨f - 1, by omega⟩
      obtain ⟨j, hdisp, hdropj, hjx⟩ := value_dispatch (JTree.obj ps) hwf b hb l
      rw [skip_obj_value_step]
      obtain ⟨m, rfl⟩ : ∃ m, g1 = m + 1 := ⟨g1 - 1, by omega⟩
      rw [read_value_ser ky hk (JTree.obj ps) hwf b l m, hdisp]
      show json_exhaust (m + 1) j
          (⟨valRem (JTree.obj ps) ++ b :: l, []⟩ : PState) =
        Out.ok (⟨b :: l, []⟩ : PState)
      rw [hjx m]
      show obj_exhaust m ⟨false⟩
          (⟨valRem (JTree.obj ps) ++ b :: l, []⟩ : PState) = Out.ok ⟨b :: l, []⟩
      rw [show (⟨valRem (JTree.obj ps) ++ b :: l, []⟩ : PState)
            = ⟨[] ++ (serPairs ps ++ 125 :: (b :: l)), []⟩ by simp [valRem]]
      exact h1 m (by omega) (b :: l)
    | str s => simp [notStr] at hns
    | null =>
      refine DSOkB_of_objectValue false _ 4 ?_
      intro f hf X hX
      obtain ⟨b, l, rfl, hb⟩ := hX
      obtain ⟨g1, rfl⟩ : ∃ g, f = g + 1 := ⟨f - 1, by omega⟩
      obtain ⟨j, hdisp, hdropj, hjx⟩ := value_dispatch JTree.null hwf b hb l
      rw [skip_obj_value_step]
      obtain ⟨m, rfl⟩ : ∃ m, g1 = m + 1 := ⟨g1 - 1, by omega⟩
      rw [read_value_ser ky hk JTree.null hwf b l m, hdisp]
      show json_exhaust (m + 1) j
          (⟨valRem JTree.null ++ b :: l, []⟩ : PState) =
        Out.ok (⟨b :: l, []⟩ : PState)
      rw [hjx m]
      rfl
    | tru =>
      refine DSOkB_of_objectValue false _ 4 ?_
      intro f hf X hX
      obtain ⟨b, l, rfl, hb⟩ := hX
      obtain ⟨g1, rfl⟩ : ∃ g, f = g + 1 := ⟨f - 1, by omega⟩
      obtain ⟨j, hdisp, hdropj, hjx⟩ := value_dispatch JTree.tru hwf b hb l
      rw [skip_obj_value_step]
      obtain ⟨m, rfl⟩ : ∃ m, g1 = m + 1 := ⟨g1 - 1, by omega⟩
      rw [read_value_ser ky hk JTree.tru hwf b l m, hdisp]
      show json_exhaust (m + 1) j
          (⟨valRem JTree.tru ++ b :: l, []⟩ : PState) =
        Out.ok (⟨b :: l, []⟩ : PState)
      rw [hjx m]
      rfl
    | fls =>
      refine DSOkB_of_objectValue false _ 4 ?_
      intro f hf X hX
      obtain ⟨b, l, rfl, hb⟩ := hX
      obtain ⟨g1, rfl⟩ : ∃ g, f = g + 1 := ⟨f - 1, by omega⟩
      obtain ⟨j, hdisp, hdropj, hjx⟩ := value_dispatch JTree.fls hwf b hb l
      rw [skip_obj_value_step]
      obtain ⟨m, rfl⟩ : ∃ m, g1 = m + 1 := ⟨g1 - 1, by omega⟩
      rw [read_value_ser ky hk JTree.fls hwf b l m, hdisp]
      show json_exhaust (m + 1) j
          (⟨valRem JTree.fls ++ b :: l, []⟩ : PState) =
        Out.ok (⟨b :: l, []⟩ : PState)
      rw [hjx m]
      rfl
    | num d ds =>
      refine DSOkB_of_objectValue false _ 4 ?_
      intro f hf X hX
      obtain ⟨b, l, rfl, hb⟩ := hX
      obtain ⟨g1, rfl⟩ : ∃ g, f = g + 1 := ⟨f - 1, by omega⟩
      obtain ⟨j, hdisp, hdropj, hjx⟩ := value_dispatch (JTree.num d ds) hwf b hb l
      rw [skip_obj_value_step]
      obtain ⟨m, rfl⟩ : ∃ m, g1 = m + 1 := ⟨g1 - 1, by omega⟩
      rw [read_value_ser ky hk (JTree.num d ds) hwf b l m, hdisp]
      show json_exhaust (m + 1) j
          (⟨valRem (JTree.num d ds) ++ b :: l, []⟩ : PState) =
        Out.ok (⟨b :: l, []⟩ : PState)
      rw [hjx m]
      rfl
  -- Part 3: ArrFirst
  · intro es hsz hwf hsc
    cases es with
    | nil =>
      intro pend P hds
      obtain ⟨Fd, hd⟩ := hds
      refine ⟨Fd + 5, ?_⟩
      intro f hf rest
      obtain ⟨g1, rfl⟩ : ∃ g, f = g + 1 := ⟨f - 1, by omega⟩
      rw [show P ++ (serElems JList.nil ++ 93 :: rest) = P ++ 93 :: rest by
            simp [serElems]]
      rw [arr_exhaust_step]
      obtain ⟨g2, rfl⟩ : ∃ g, g1 = g + 1 := ⟨g1 - 1, by omega⟩
      rw [arr_next_notended, hd g2 (by omega) (93 :: rest)]
      obtain ⟨g3, rfl⟩ : ∃ g, g2 = g + 1 := ⟨g2 - 1, by omega⟩
      rfl
    | cons e tl =>
      intro pend P hds
      obtain ⟨Fd, hd⟩ := hds
      have hwf2 : wfT e = true ∧ wfL tl = true := by
        simpa [wfL, Bool.and_eq_true] using hwf
      have hsc2 : skipCleanT e = true ∧ skipCleanL tl = true := by
        simpa [skipCleanL, Bool.and_eq_true] using hsc
      have hsp : sizeOf (JList.cons e tl) = 1 + sizeOf e + sizeOf tl := by simp
      have IH := ih (n - 1) (by omega)
      have hskipval := IH.1 e (by omega) hwf2.1 hsc2.1
      obtain ⟨F3, h3⟩ :=
        IH.2.2.2.1 tl (by omega) hwf2.2 hsc2.2 (treePend e) (valRem e) hskipval
      refine ⟨Fd + F3 + 6, ?_⟩
      intro f hf rest
      obtain ⟨b, rest', hsplit, hbacc⟩ := elems_tail_split tl rest
      obtain ⟨j, hdisp, hdropj, hjx⟩ := value_dispatch e hwf2.1 b hbacc rest'
      have hns := serHead_not_sep e hwf2.1
      obtain ⟨g1, rfl⟩ : ∃ g, f = g + 1 := ⟨f - 1, by omega⟩
      rw [show P ++ (serElems (JList.cons e tl) ++ 93 :: rest)
            = P ++ (ser e ++ (serElemsTail tl ++ 93 :: rest)) by simp [serElems]]
      rw [arr_exhaust_step]
      obtain ⟨g2, rfl⟩ : ∃ g, g1 = g + 1 := ⟨g1 - 1, by omega⟩
      rw [arr_next_notended,
          hd g2 (by omega) (ser e ++ (serElemsTail tl ++ 93 :: rest))]
      obtain ⟨g3, rfl⟩ : ∃ g, g2 = g + 1 := ⟨g2 - 1, by omega⟩
      have hin : ser e ++ (serElemsTail tl ++ 93 :: rest)
          = serHead e :: (serTail e ++ b :: rest') := by
        rw [ser_eq e, hsplit]
        simp
      have hstep2 : arr_loop (g3 + 1) ⟨false, false⟩
            (⟨ser e ++ (serElemsTail tl ++ 93 :: rest), []⟩ : PState)
          = Out.ok (some (Except.ok j), ⟨false, true⟩,
                    ⟨valRem e ++ b :: rest', []⟩) := by
        rw [hin, arr_loop_dispatch g3 (serHead e) _ _ hns.2.2.1 hns.2.1 hns.1,
            hdisp]
      show (match arr_loop (g3 + 1) ⟨false, false⟩
              (⟨ser e ++ (serElemsTail tl ++ 93 :: rest), []⟩ : PState) with
            | Out.ok (none, a', st') => Out.ok (drop_array a' st')
            | Out.ok (some r, a', st') =>
              arr_exhaust (g3 + 1 + 1) a' (drop_jres r st')
            | Out.panicked => Out.panicked
            | Out.nofuel => Out.nofuel) = Out.ok (⟨rest, []⟩ : PState)
      rw [hstep2]
      show arr_exhaust (g3 + 1 + 1) ⟨false, true⟩
          (drop_jres (Except.ok j) ⟨valRem e ++ b :: rest', []⟩) =
        Out.ok (⟨rest, []⟩ : PState)
      rw [hdropj]
      rw [show (valRem e ++ b :: rest' : List Nat)
            = valRem e ++ (serElemsTail tl ++ 93 :: rest) by rw [hsplit]]
      exact h3 (g3 + 1 + 1) (by omega) rest
  -- Part 4: ArrTail
  · intro es hsz hwf hsc
    cases es with
    | nil =>
      intro pend P hds
      obtain ⟨Fd, hd⟩ := hds
      refine ⟨Fd + 5, ?_⟩
      intro f hf rest
      obtain ⟨g1, rfl⟩ : ∃ g, f = g + 1 := ⟨f - 1, by omega⟩
      rw [show P ++ (serElemsTail JList.nil ++ 93 :: rest) = P ++ 93 :: rest by
            simp [serElemsTail]]
      rw [arr_exhaust_step]
      obtain ⟨g2, rfl⟩ : ∃ g, g1 = g + 1 := ⟨g1 - 1, by omega⟩
      rw [arr_next_notended, hd g2 (by omega) (93 :: rest)]
      obtain ⟨g3, rfl⟩ : ∃ g, g2 = g + 1 := ⟨g2 - 1, by omega⟩
      rfl
    | cons e tl =>
      intro pend P hds
      obtain ⟨Fd, hd⟩ := hds
      have hwf2 : wfT e = true ∧ wfL tl = true := by
        simpa [wfL, Bool.and_eq_true] using hwf
      have hsc2 : skipCleanT e = true ∧ skipCleanL tl = true := by
        simpa [skipCleanL, Bool.and_eq_true] using hsc
      have hsp : sizeOf (JList.cons e tl) = 1 + sizeOf e + sizeOf tl := by simp
      have IH := ih (n - 1) (by omega)
      have hskipval := IH.1 e (by omega) hwf2.1 hsc2.1
      obtain ⟨F3, h3⟩ :=
        IH.2.2.2.1 tl (by omega) hwf2.2 hsc2.2 (treePend e) (valRem e) hskipval
      refine ⟨Fd + F3 + 7, ?_⟩
      intro f hf rest
      obtain ⟨b, rest', hsplit, hbacc⟩ := elems_tail_split tl rest
      obtain ⟨j, hdisp, hdropj, hjx⟩ := value_dispatch e hwf2.1 b hbacc rest'
      have hns := serHead_not_sep e hwf2.1
      obtain ⟨g1, rfl⟩ : ∃ g, f = g + 1 := ⟨f - 1, by omega⟩
      rw [show P ++ (serElemsTail (JList.cons e tl) ++ 93 :: rest)
            = P ++ (44 :: (ser e ++ (serElemsTail tl ++ 93 :: rest))) by
            simp [serElemsTail]]
      rw [arr_exhaust_step]
      obtain ⟨g2, rfl⟩ : ∃ g, g1 = g + 1 := ⟨g1 - 1, by omega⟩
      rw [arr_next_notended,
          hd g2 (by omega) (44 :: (ser e ++ (serElemsTail tl ++ 93 :: rest)))]
      obtain ⟨g3, rfl⟩ : ∃ g, g2 = g + 1 := ⟨g2 - 1, by omega⟩
      show (match arr_loop (g3 + 1) ⟨false, true⟩
              (⟨44 :: (ser e ++ (serElemsTail tl ++ 93 :: rest)), []⟩ : PState) with
            | Out.ok (none, a', st') => Out.ok (drop_array a' st')
            | Out.ok (some r, a', st') =>
              arr_exhaust (g3 + 1 + 1) a' (drop_jres r st')
            | Out.panicked => Out.panicked
            | Out.nofuel => Out.nofuel) = Out.ok (⟨rest, []⟩ : PState)
      rw [arr_loop_comma_continue]
      obtain ⟨g4, rfl⟩ : ∃ g, g3 = g + 1 := ⟨g3 - 1, by omega⟩
      have hin : ser e ++ (serElemsTail tl ++ 93 :: rest)
          = serHead e :: (serTail e ++ b :: rest') := by
        rw [ser_eq e, hsplit]
        simp
      have hstep2 : arr_loop (g4 + 1) ⟨false, false⟩
            (⟨ser e ++ (serElemsTail tl ++ 93 :: rest), []⟩ : PState)
          = Out.ok (some (Except.ok j), ⟨false, true⟩,
                    ⟨valRem e ++ b :: rest', []⟩) := by
        rw [hin, arr_loop_dispatch g4 (serHead e) _ _ hns.2.2.1 hns.2.1 hns.1,
            hdisp]
      show (match arr_loop (g4 + 1) ⟨false, false⟩
              (⟨ser e ++ (serElemsTail tl ++ 93 :: rest), []⟩ : PState) with
            | Out.ok (none, a', st') => Out.ok (drop_array a' st')
            | Out.ok (some r, a', st') =>
              arr_exhaust (g4 + 1 + 1 + 1) a' (drop_jres r st')
            | Out.panicked => Out.panicked
            | Out.nofuel => Out.nofuel) = Out.ok (⟨rest, []⟩ : PState)
      rw [hstep2]
      show arr_exhaust (g4 + 1 + 1 + 1) ⟨false, true⟩
          (drop_jres (Except.ok j) ⟨valRem e ++ b :: rest', []⟩) =
        Out.ok (⟨rest, []⟩ : PState)
      rw [hdropj]
      rw [show (valRem e ++ b :: rest' : List Nat)
            = valRem e ++ (serElemsTail tl ++ 93 :: rest) by rw [hsplit]]
      exact h3 (g4 + 1 + 1 + 1) (by omega) rest
  -- Part 5: ObjFirst
  · intro ps hsz hwf hsc
    cases ps with
    | pnil =>
      intro pend P hds
      obtain ⟨Fd, hd⟩ := hds
      refine ⟨Fd + 5, ?_⟩
      intro f hf rest
      obtain ⟨g1, rfl⟩ : ∃ g, f = g + 1 := ⟨f - 1, by omega⟩
      rw [show P ++ (serPairs JPairs.pnil ++ 125 :: rest) = P ++ 125 :: rest by
            simp [serPairs]]
      rw [obj_exhaust_step]
      obtain ⟨g2, rfl⟩ : ∃ g, g1 = g + 1 := ⟨g1 - 1, by omega⟩
      rw [obj_next_notended,
          hd g2 (by omega) (125 :: rest) ⟨125, rest, rfl, by decide⟩]
      obtain ⟨g3, rfl⟩ : ∃ g, g2 = g + 1 := ⟨g2 - 1, by omega⟩
      rfl
    | pcons ky v tl =>
      intro pend P hds
      obtain ⟨Fd, hd⟩ := hds
      have hwf2 : ky.all plainByte = true ∧ wfT v = true ∧ wfP tl = true := by
        simpa [wfP, Bool.and_eq_true, and_assoc] using hwf
      have hsc2 : notStr v = true ∧ skipCleanT v = true ∧ skipCleanP tl = true := by
        simpa [skipCleanP, Bool.and_eq_true, and_assoc] using hsc
      have hsp : sizeOf (JPairs.pcons ky v tl)
          = 1 + sizeOf ky + sizeOf v + sizeOf tl := by simp
      have IH := ih (n - 1) (by omega)
      have hsov := IH.2.1 ky v (by omega) hwf2.1 hwf2.2.1 hsc2.2.1 hsc2.1
      obtain ⟨F3, h3⟩ := IH.2.2.2.2.2 tl (by omega) hwf2.2.2 hsc2.2.2
          [Skip.objectValue false] ((ky ++ [34]) ++ 58 :: ser v) hsov
      refine ⟨Fd + F3 + 6, ?_⟩
      intro f hf rest
      obtain ⟨g1, rfl⟩ : ∃ g, f = g + 1 := ⟨f - 1, by omega⟩
      rw [show P ++ (serPairs (JPairs.pcons ky v tl) ++ 125 :: rest)
            = P ++ (34 :: (((ky ++ [34]) ++ 58 :: ser v) ++
                (serPairsTail tl ++ 125 :: rest))) by
            simp [serPairs, serPair]]
      rw [obj_exhaust_step]
      obtain ⟨g2, rfl⟩ : ∃ g, g1 = g + 1 := ⟨g1 - 1, by omega⟩
      rw [obj_next_notended,
          hd g2 (by omega) _ ⟨34, ((ky ++ [34]) ++ 58 :: ser v) ++
            (serPairsTail tl ++ 125 :: rest), rfl, by decide⟩]
      obtain ⟨g3, rfl⟩ : ∃ g, g2 = g + 1 := ⟨g2 - 1, by omega⟩
      show (match obj_loop (g3 + 1) ⟨false⟩
              (⟨34 :: (((ky ++ [34]) ++ 58 :: ser v) ++
                  (serPairsTail tl ++ 125 :: rest)), []⟩ : PState) with
            | Out.ok (none, o', st') => Out.ok (drop_object o' st')
            | Out.ok (some _, o', st') =>
              obj_exhaust (g3 + 1 + 1) o' (add_skip (Skip.objectValue false) st')
            | Out.panicked => Out.panicked
            | Out.nofuel => Out.nofuel) = Out.ok (⟨rest, []⟩ : PState)
      rw [obj_loop_pair]
      show obj_exhaust (g3 + 1 + 1) ⟨false⟩
          (add_skip (Skip.objectValue false)
            (⟨((ky ++ [34]) ++ 58 :: ser v) ++ (serPairsTail tl ++ 125 :: rest),
              []⟩ : PState)) = Out.ok (⟨rest, []⟩ : PState)
      rw [show add_skip (Skip.objectValue false)
            (⟨((ky ++ [34]) ++ 58 :: ser v) ++ (serPairsTail tl ++ 125 :: rest),
              []⟩ : PState)
          = ⟨((ky ++ [34]) ++ 58 :: ser v) ++ (serPairsTail tl ++ 125 :: rest),
             [Skip.objectValue false]⟩ by simp [add_skip]]
      exact h3 (g3 + 1 + 1) (by omega) rest
  -- Part 6: ObjTail
  · intro ps hsz hwf hsc
    cases ps with
    | pnil =>
      intro pend P hds
      obtain ⟨Fd, hd⟩ := hds
      refine ⟨Fd + 5, ?_⟩
      intro f hf rest
      obtain ⟨g1, rfl⟩ : ∃ g, f = g + 1 := ⟨f - 1, by omega⟩
      rw [show P ++ (serPairsTail JPairs.pnil ++ 125 :: rest) = P ++ 125 :: rest by
            simp [serPairsTail]]
      rw [obj_exhaust_step]
      obtain ⟨g2, rfl⟩ : ∃ g, g1 = g + 1 := ⟨g1 - 1, by omega⟩
      rw [obj_next_notended,
          hd g2 (by omega) (125 :: rest) ⟨125, rest, rfl, by decide⟩]
      obtain ⟨g3, rfl⟩ : ∃ g, g2 = g + 1 := ⟨g2 - 1, by omega⟩
      rfl
    | pcons ky v tl =>
      intro pend P hds
      obtain ⟨Fd, hd⟩ := hds
      have hwf2 : ky.all plainByte = true ∧ wfT v = true ∧ wfP tl = true := by
        simpa [wfP, Bool.and_eq_true, and_assoc] using hwf
      have hsc2 : notStr v = true ∧ skipCleanT v = true ∧ skipCleanP tl = true := by
        simpa [skipCleanP, Bool.and_eq_true, and_assoc] using hsc
      have hsp : sizeOf (JPairs.pcons ky v tl)
          = 1 + sizeOf ky + sizeOf v + sizeOf tl := by simp
      have IH := ih (n - 1) (by omega)
      have hsov := IH.2.1 ky v (by omega) hwf2.1 hwf2.2.1 hsc2.2.1 hsc2.1
      obtain ⟨F3, h3⟩ := IH.2.2.2.2.2 tl (by omega) hwf2.2.2 hsc2.2.2
          [Skip.objectValue false] ((ky ++ [34]) ++ 58 :: ser v) hsov
      refine ⟨Fd + F3 + 7, ?_⟩
      intro f hf rest
      obtain ⟨g1, rfl⟩ : ∃ g, f = g + 1 := ⟨f - 1, by omega⟩
      rw [show P ++ (serPairsTail (JPairs.pcons ky v tl) ++ 125 :: rest)
            = P ++ (44 :: (34 :: (((ky ++ [34]) ++ 58 :: ser v) ++
                (serPairsTail tl ++ 125 :: rest)))) by
            simp [serPairsTail, serPair]]
      rw [obj_exhaust_step]
      obtain ⟨g2, rfl⟩ : ∃ g, g1 = g + 1 := ⟨g1 - 1, by omega⟩
      rw [obj_next_notended,
          hd g2 (by omega) _ ⟨44, 34 :: (((ky ++ [34]) ++ 58 :: ser v) ++
            (serPairsTail tl ++ 125 :: rest)), rfl, by decide⟩]
      obtain ⟨g3, rfl⟩ : ∃ g, g2 = g + 1 := ⟨g2 - 1, by omega⟩
      show (match obj_loop (g3 + 1) ⟨false⟩
              (⟨44 :: (34 :: (((ky ++ [34]) ++ 58 :: ser v) ++
                  (serPairsTail tl ++ 125 :: rest))), []⟩ : PState) with
            | Out.ok (none, o', st') => Out.ok (drop_object o' st')
            | Out.ok (some _, o', st') =>
              obj_exhaust (g3 + 1 + 1) o' (add_skip (Skip.objectValue false) st')
            | Out.panicked => Out.panicked
            | Out.nofuel => Out.nofuel) = Out.ok (⟨rest, []⟩ : PState)
      rw [obj_loop_comma]
      obtain ⟨g4, rfl⟩ : ∃ g, g3 = g + 1 := ⟨g3 - 1, by omega⟩
      rw [obj_loop_pair]
      show obj_exhaust (g4 + 1 + 1 + 1) ⟨false⟩
          (add_skip (Skip.objectValue false)
            (⟨((ky ++ [34]) ++ 58 :: ser v) ++ (serPairsTail tl ++ 125 :: rest),
              []⟩ : PState)) = Out.ok (⟨rest, []⟩ : PState)
      rw [show add_skip (Skip.objectValue false)
            (⟨((ky ++ [34]) ++ 58 :: ser v) ++ (serPairsTail tl ++ 125 :: rest),
              []⟩ : PState)
          = ⟨((ky ++ [34]) ++ 58 :: ser v) ++ (serPairsTail tl ++ 125 :: rest),
             [Skip.objectValue false]⟩ by simp [add_skip]]
      exact h3 (g4 + 1 + 1 + 1) (by omega) rest

theorem do_skips_empty (f : Nat) (inp : List Nat) :
    do_skips (f + 1) ⟨inp, []⟩ = Out.ok ⟨inp, []⟩ := rfl

/-- The skip job of a dropped fresh handle of a skip-clean value consumes
exactly the unread remainder of the value, whatever its nesting depth. -/
theorem skipval_any (t : JTree) (hwf : wfT t = true)
    (hsc : skipCleanT t = true) : DSOk (treePend t) (valRem t) :=
  (deep_skip_all (sizeOf t)).1 t le_rfl hwf hsc

/-- skip_array on a partially consumed array body (remaining elements each
preceded by a comma, then the closing bracket) consumes exactly it;
the leading comma surfaces as a tolerated TrailingComma inside the skip. -/
theorem skip_array_partial (tl : JList) (hwf : wfL tl = true)
    (hsc : skipCleanL tl = true) :
    ∃ F, ∀ f, F ≤ f → ∀ X,
      skip_array f ⟨serElemsTail tl ++ 93 :: X, []⟩ = Out.ok ⟨X, []⟩ := by
  cases tl with
  | nil =>
    refine ⟨5, ?_⟩
    intro f hf X
    obtain ⟨g1, rfl⟩ : ∃ g, f = g + 1 := ⟨f - 1, by omega⟩
    rw [skip_array_step]
    rw [show (serElemsTail JList.nil ++ 93 :: X : List Nat) = 93 :: X by
          simp [serElemsTail]]
    obtain ⟨g2, rfl⟩ : ∃ g, g1 = g + 1 := ⟨g1 - 1, by omega⟩
    rw [arr_exhaust_step]
    obtain ⟨g3, rfl⟩ : ∃ g, g2 = g + 1 := ⟨g2 - 1, by omega⟩
    rw [arr_next_notended]
    obtain ⟨g4, rfl⟩ : ∃ g, g3 = g + 1 := ⟨g3 - 1, by omega⟩
    rw [do_skips_empty]
    rfl
  | cons e tl' =>
    have hwf2 : wfT e = true ∧ wfL tl' = true := by
      simpa [wfL, Bool.and_eq_true] using hwf
    obtain ⟨F1, h1⟩ :=
      (deep_skip_all (sizeOf (JList.cons e tl'))).2.2.1 (JList.cons e tl')
        le_rfl hwf hsc [] [] DSOk_nil
    refine ⟨F1 + 4, ?_⟩
    intro f hf X
    obtain ⟨g1, rfl⟩ : ∃ g, f = g + 1 := ⟨f - 1, by omega⟩
    rw [skip_array_step]
    rw [show (serElemsTail (JList.cons e tl') ++ 93 :: X : List Nat)
          = 44 :: (serElems (JList.cons e tl') ++ 93 :: X) by
          simp [serElemsTail, serElems]]
    obtain ⟨g2, rfl⟩ : ∃ g, g1 = g + 1 := ⟨g1 - 1, by omega⟩
    rw [arr_exhaust_step]
    obtain ⟨g3, rfl⟩ : ∃ g, g2 = g + 1 := ⟨g2 - 1, by omega⟩
    rw [arr_next_notended]
    rw [show do_skips g3 (⟨44 :: (serElems (JList.cons e tl') ++ 93 :: X), []⟩
            : PState)
          = Out.ok ⟨44 :: (serElems (JList.cons e tl') ++ 93 :: X), []⟩ by
          obtain ⟨g4, rfl⟩ : ∃ g, g3 = g + 1 := ⟨g3 - 1, by omega⟩
          rfl]
    obtain ⟨g4, rfl⟩ : ∃ g, g3 = g + 1 := ⟨g3 - 1, by omega⟩
    show arr_exhaust (g4 + 1 + 1) ⟨false, false⟩
        (drop_jres (Except.error SyntaxError.trailingComma)
          ⟨serElems (JList.cons e tl') ++ 93 :: X, []⟩) = Out.ok ⟨X, []⟩
    rw [show drop_jres (Except.error SyntaxError.trailingComma)
          (⟨serElems (JList.cons e tl') ++ 93 :: X, []⟩ : PState)
        = ⟨[] ++ (serElems (JList.cons e tl') ++ 93 :: X), []⟩ by
          simp [drop_jres]]
    exact h1 (g4 + 1 + 1) (by omega) X

/-- After dropping a fresh handle for the last element of an array, the
parent's next call drains the skip and yields the terminator. -/
theorem arr_next_after_drop_term (t : JTree) (hwf : wfT t = true)
    (hsc : skipCleanT t = true) :
    ∃ F, ∀ f, F ≤ f → ∀ rest : List Nat,
      arr_next f ⟨false, true⟩ ⟨valRem t ++ 93 :: rest, treePend t⟩ =
        Out.ok (none, ⟨true, true⟩, ⟨rest, []⟩) := by
  obtain ⟨Fd, hd⟩ := skipval_any t hwf hsc
  refine ⟨Fd + 3, ?_⟩
  intro f hf rest
  obtain ⟨g1, rfl⟩ : ∃ g, f = g + 1 := ⟨f - 1, by omega⟩
  rw [arr_next_notended, hd g1 (by omega) (93 :: rest)]
  obtain ⟨g2, rfl⟩ : ∃ g, g1 = g + 1 := ⟨g1 - 1, by omega⟩
  rfl

/-- After dropping a fresh handle for an array element with a following
sibling, the parent's next call drains the skip and yields that sibling. -/
theorem arr_next_after_drop_sib (t e' : JTree) (hwt : wfT t = true)
    (hsct : skipCleanT t = true)
    (hwe : wfT e' = true) (b : Nat) (hb : isAccByte b = false) :
    ∃ F, ∀ f, F ≤ f → ∀ rest : List Nat, ∃ j : JVal,
      arr_next f ⟨false, true⟩
          ⟨valRem t ++ 44 :: (ser e' ++ b :: rest), treePend t⟩ =
        Out.ok (some (Except.ok j), ⟨false, true⟩,
                ⟨valRem e' ++ b :: rest, []⟩) := by
  obtain ⟨Fd, hd⟩ := skipval_any t hwt hsct
  refine ⟨Fd + 4, ?_⟩
  intro f hf rest
  obtain ⟨j, hdisp, hdropj, hjx⟩ := value_dispatch e' hwe b hb rest
  refine ⟨j, ?_⟩
  have hns := serHead_not_sep e' hwe
  obtain ⟨g1, rfl⟩ : ∃ g, f = g + 1 := ⟨f - 1, by omega⟩
  rw [arr_next_notended, hd g1 (by omega) (44 :: (ser e' ++ b :: rest))]
  obtain ⟨g2, rfl⟩ : ∃ g, g1 = g + 1 := ⟨g1 - 1, by omega⟩
  show arr_loop (g2 + 1) ⟨false, true⟩
      (⟨44 :: (ser e' ++ b :: rest), []⟩ : PState) =
    Out.ok (some (Except.ok j), ⟨false, true⟩, ⟨valRem e' ++ b :: rest, []⟩)
  rw [arr_loop_comma_continue]
  obtain ⟨g3, rfl⟩ : ∃ g, g2 = g + 1 := ⟨g2 - 1, by omega⟩
  rw [show (ser e' ++ b :: rest : List Nat)
        = serHead e' :: (serTail e' ++ b :: rest) by rw [ser_eq e']; simp]
  rw [arr_loop_dispatch g3 (serHead e') _ _ hns.2.2.1 hns.2.1 hns.1, hdisp]

/-- After dropping a fresh KeyVal for the last pair of an object, the
parent's next call drains the skip and yields the terminator. -/
theorem obj_next_after_kvdrop_term (ky : List Nat) (v : JTree)
    (hk : ky.all plainByte = true) (hwf : wfT v = true)
    (hsc : skipCleanT v = true) (hns : notStr v = true) :
    ∃ F, ∀ f, F ≤ f → ∀ rest : List Nat,
      obj_next f ⟨false⟩ ⟨((ky ++ [34]) ++ 58 :: ser v) ++ 125 :: rest,
          [Skip.objectValue false]⟩ =
        Out.ok (none, ⟨true⟩, ⟨rest, []⟩) := by
  obtain ⟨Fd, hd⟩ := (deep_skip_all (sizeOf v)).2.1 ky v le_rfl hk hwf hsc hns
  refine ⟨Fd + 3, ?_⟩
  intro f hf rest
  obtain ⟨g1, rfl⟩ : ∃ g, f = g + 1 := ⟨f - 1, by omega⟩
  rw [obj_next_notended,
      hd g1 (by omega) (125 :: rest) ⟨125, rest, rfl, by decide⟩]
  obtain ⟨g2, rfl⟩ : ∃ g, g1 = g + 1 := ⟨g1 - 1, by omega⟩
  rfl

/-- After dropping a fresh KeyVal with a following pair, the parent's next
call drains the skip and yields the next pair's KeyVal. -/
theorem obj_next_after_kvdrop_sib (ky : List Nat) (v : JTree)
    (ky2 : List Nat) (v2 : JTree) (hk : ky.all plainByte = true)
    (hwf : wfT v = true) (hsc : skipCleanT v = true) (hns : notStr v = true) :
    ∃ F, ∀ f, F ≤ f → ∀ rest : List Nat,
      obj_next f ⟨false⟩ ⟨((ky ++ [34]) ++ 58 :: ser v) ++
          44 :: (serPair ky2 v2 ++ rest), [Skip.objectValue false]⟩ =
        Out.ok (some (), ⟨false⟩, ⟨((ky2 ++ [34]) ++ 58 :: ser v2) ++ rest, []⟩) := by
  obtain ⟨Fd, hd⟩ := (deep_skip_all (sizeOf v)).2.1 ky v le_rfl hk hwf hsc hns
  refine ⟨Fd + 4, ?_⟩
  intro f hf rest
  obtain ⟨g1, rfl⟩ : ∃ g, f = g + 1 := ⟨f - 1, by omega⟩
  rw [obj_next_notended,
      hd g1 (by omega) (44 :: (serPair ky2 v2 ++ rest))
        ⟨44, serPair ky2 v2 ++ rest, rfl, by decide⟩]
  obtain ⟨g2, rfl⟩ : ∃ g, g1 = g + 1 := ⟨g1 - 1, by omega⟩
  show obj_loop (g2 + 1) ⟨false⟩ (⟨44 :: (serPair ky2 v2 ++ rest), []⟩ : PState) =
    Out.ok (some (), ⟨false⟩, ⟨((ky2 ++ [34]) ++ 58 :: ser v2) ++ rest, []⟩)
  rw [obj_loop_comma]
  obtain ⟨g3, rfl⟩ : ∃ g, g2 = g + 1 := ⟨g2 - 1, by omega⟩
  rw [show (serPair ky2 v2 ++ rest : List Nat)
        = 34 :: (((ky2 ++ [34]) ++ 58 :: ser v2) ++ rest) by
        simp [serPair]]
  rw [obj_loop_pair]

/-- C2 counterexample: the claim says dropping ANY sub-parser handle
enqueues a skip job.  ParseChars has no Drop impl (and read_chars takes
the session out of the ParseString, disabling its drop), so dropping a
ParseChars mid-string enqueues nothing: in ["ab","c"], reading the first
string char-by-char up to the letter a, dropping the char reader, and
calling next() on the parent array yields Err(MissingComma) from the
middle of the string — not the lexically next sibling "c" and not the
terminator.  The queue stays empty throughout (there is no drop function
to model because the code has none). -/
theorem c2_drop_parsechars_counterexample :
    parser_next 100 ⟨strBytes "[\"ab\",\"c\"]", []⟩ =
        Out.ok (some (Except.ok JVal.arrayH), ⟨strBytes "\"ab\",\"c\"]", []⟩)
      ∧ arr_next 100 ⟨false, false⟩ ⟨strBytes "\"ab\",\"c\"]", []⟩ =
          Out.ok (some (Except.ok JVal.stringH), ⟨false, true⟩,
                  ⟨strBytes "ab\",\"c\"]", []⟩)
      ∧ chars_next 100 ⟨strBytes "ab\",\"c\"]", []⟩ =
          Out.ok (some 97, ⟨strBytes "b\",\"c\"]", []⟩)
      ∧ arr_next 100 ⟨false, true⟩ ⟨strBytes "b\",\"c\"]", []⟩ =
          Out.ok (some (Except.error SyntaxError.missingComma),
                  ⟨false, false⟩, ⟨strBytes "b\",\"c\"]", []⟩) :=
  ⟨by rfl, by rfl, by rfl, by rfl⟩

/-- C2 amended: dropping a ParseString, ParseArray, ParseObject or KeyVal
handle enqueues its skip job and never advances the cursor; the parent's
next() first drains pending skips and then yields the lexically next
sibling or the parent terminator, at any nesting depth of the dropped
value — PROVIDED the dropped value is skip-clean: it contains no object
pair whose value is a string (stated over every well-formed serialized
skip-clean value).  Two exceptions are forced by the code.  First,
ParseChars has no Drop impl (the counterexample).  Second, skipping an
object pair whose value is a string leaves a spurious Skip::String
queued (skip_obj_value's String arm calls p.skip() and then drops p with
its session still armed), and a later next() on the parent misparses or
panics: concretely, in the object with pairs a:"v1", b:"v2", c:3,
dropping the first KeyVal makes the drain of Skip::ObjectValue enqueue
Skip::String; after the second pair is read normally, the third next()
drains that stale job — skip_string eats the comma and the opening quote
of "c" — and the object loop panics on the bare byte c.  The clean
concrete scenario: in [1, [2,3], 4], after reading 1, opening the nested
array, reading 2 and dropping the nested array, the parent yields 4 and
then None. -/
theorem c2_deep_skip_amended :
    (∀ (a : ParseArray) (st : PState), (drop_array a st).input = st.input)
      ∧ (∀ (o : ParseObject) (st : PState), (drop_object o st).input = st.input)
      ∧ (∀ st : PState, (drop_parse_string st).input = st.input
          ∧ (drop_parse_string st).skips = st.skips ++ [Skip.string])
      ∧ (∀ (kv : KeyVal) (st : PState), (drop_keyval kv st).input = st.input
          ∧ (drop_keyval kv st).skips =
              st.skips ++ [Skip.objectValue kv.key_consumed])
      ∧ (∀ (a : ParseArray) (st : PState), a.ended = false →
          (drop_array a st).skips = st.skips ++ [Skip.array])
      ∧ (∀ (o : ParseObject) (st : PState), o.ended = false →
          (drop_object o st).skips = st.skips ++ [Skip.object])
      ∧ (∀ t : JTree, wfT t = true → skipCleanT t = true →
          ∃ F, ∀ f, F ≤ f → ∀ rest : List Nat,
            arr_next f ⟨false, true⟩ ⟨valRem t ++ 93 :: rest, treePend t⟩ =
              Out.ok (none, ⟨true, true⟩, ⟨rest, []⟩))
      ∧ (∀ t e' : JTree, wfT t = true → skipCleanT t = true → wfT e' = true →
          ∀ b : Nat, isAccByte b = false →
          ∃ F, ∀ f, F ≤ f → ∀ rest : List Nat, ∃ j : JVal,
            arr_next f ⟨false, true⟩
                ⟨valRem t ++ 44 :: (ser e' ++ b :: rest), treePend t⟩ =
              Out.ok (some (Except.ok j), ⟨false, true⟩,
                      ⟨valRem e' ++ b :: rest, []⟩))
      ∧ (∀ (ky : List Nat) (v : JTree), ky.all plainByte = true →
          wfT v = true → skipCleanT v = true → notStr v = true →
          ∃ F, ∀ f, F ≤ f → ∀ rest : List Nat,
            obj_next f ⟨false⟩ ⟨((ky ++ [34]) ++ 58 :: ser v) ++ 125 :: rest,
                [Skip.objectValue false]⟩ =
              Out.ok (none, ⟨true⟩, ⟨rest, []⟩))
      ∧ (∀ (ky : List Nat) (v : JTree) (ky2 : List Nat) (v2 : JTree),
          ky.all plainByte = true → wfT v = true → skipCleanT v = true →
          notStr v = true →
          ∃ F, ∀ f, F ≤ f → ∀ rest : List Nat,
            obj_next f ⟨false⟩ ⟨((ky ++ [34]) ++ 58 :: ser v) ++
                44 :: (serPair ky2 v2 ++ rest), [Skip.objectValue false]⟩ =
              Out.ok (some (), ⟨false⟩,
                      ⟨((ky2 ++ [34]) ++ 58 :: ser v2) ++ rest, []⟩))
      ∧ parser_next 100 ⟨strBytes "[1, [2,3], 4]", []⟩ =
          Out.ok (some (Except.ok JVal.arrayH), ⟨strBytes "1, [2,3], 4]", []⟩)
      ∧ arr_next 100 ⟨false, false⟩ ⟨strBytes "1, [2,3], 4]", []⟩ =
          Out.ok (some (Except.ok (JVal.number (Number.fromUnsigned 1))),
                  ⟨false, true⟩, ⟨strBytes ", [2,3], 4]", []⟩)
      ∧ arr_next 100 ⟨false, true⟩ ⟨strBytes ", [2,3], 4]", []⟩ =
          Out.ok (some (Except.ok JVal.arrayH), ⟨false, true⟩,
                  ⟨strBytes "2,3], 4]", []⟩)
      ∧ arr_next 100 ⟨false, false⟩ ⟨strBytes "2,3], 4]", []⟩ =
          Out.ok (some (Except.ok (JVal.number (Number.fromUnsigned 2))),
                  ⟨false, true⟩, ⟨strBytes ",3], 4]", []⟩)
      ∧ drop_array ⟨false, true⟩ ⟨strBytes ",3], 4]", []⟩ =
          ⟨strBytes ",3], 4]", [Skip.array]⟩
      ∧ arr_next 100 ⟨false, true⟩ ⟨strBytes ",3], 4]", [Skip.array]⟩ =
          Out.ok (some (Except.ok (JVal.number (Number.fromUnsigned 4))),
                  ⟨false, true⟩, ⟨strBytes "]", []⟩)
      ∧ arr_next 100 ⟨false, true⟩ ⟨strBytes "]", []⟩ =
          Out.ok (none, ⟨true, true⟩, ⟨[], []⟩)
      ∧ parser_next 100 ⟨strBytes "\x7b\"a\":\"v1\",\"b\":\"v2\",\"c\":3\x7d", []⟩ =
          Out.ok (some (Except.ok JVal.objectH),
                  ⟨strBytes "\"a\":\"v1\",\"b\":\"v2\",\"c\":3\x7d", []⟩)
      ∧ obj_next 100 ⟨false⟩ ⟨strBytes "\"a\":\"v1\",\"b\":\"v2\",\"c\":3\x7d", []⟩ =
          Out.ok (some (), ⟨false⟩,
                  ⟨strBytes "a\":\"v1\",\"b\":\"v2\",\"c\":3\x7d", []⟩)
      ∧ drop_keyval ⟨false⟩ ⟨strBytes "a\":\"v1\",\"b\":\"v2\",\"c\":3\x7d", []⟩ =
          ⟨strBytes "a\":\"v1\",\"b\":\"v2\",\"c\":3\x7d", [Skip.objectValue false]⟩
      ∧ obj_next 100 ⟨false⟩ ⟨strBytes "a\":\"v1\",\"b\":\"v2\",\"c\":3\x7d",
            [Skip.objectValue false]⟩ =
          Out.ok (some (), ⟨false⟩,
                  ⟨strBytes "b\":\"v2\",\"c\":3\x7d", [Skip.string]⟩)
      ∧ KeyVal.key ⟨false⟩ = Out.ok ⟨true⟩
      ∧ read_owned ⟨strBytes "b\":\"v2\",\"c\":3\x7d", [Skip.string]⟩ =
          Out.ok (strBytes "b", ⟨strBytes ":\"v2\",\"c\":3\x7d", [Skip.string]⟩)
      ∧ KeyVal.value 100 ⟨true⟩ ⟨strBytes ":\"v2\",\"c\":3\x7d", [Skip.string]⟩ =
          Out.ok (Except.ok JVal.stringH,
                  ⟨strBytes "v2\",\"c\":3\x7d", [Skip.string]⟩)
      ∧ read_owned ⟨strBytes "v2\",\"c\":3\x7d", [Skip.string]⟩ =
          Out.ok (strBytes "v2", ⟨strBytes ",\"c\":3\x7d", [Skip.string]⟩)
      ∧ obj_next 100 ⟨false⟩ ⟨strBytes ",\"c\":3\x7d", [Skip.string]⟩ =
          Out.panicked := by
  refine ⟨?_, ?_, ?_, ?_, ?_, ?_, arr_next_after_drop_term,
          ?_, obj_next_after_kvdrop_term, ?_,
          by rfl, by rfl, by rfl, by rfl, by rfl, by rfl, by rfl,
          by rfl, by rfl, by rfl, by rfl, by rfl, by rfl, by rfl, by rfl,
          by rfl⟩
  · intro a st
    cases ha : a.ended <;> simp [drop_array, add_skip, ha]
  · intro o st
    cases ho : o.ended <;> simp [drop_object, add_skip, ho]
  · intro st
    simp [drop_parse_string, add_skip]
  · intro kv st
    simp [drop_keyval, add_skip]
  · intro a st ha
    simp [drop_array, add_skip, ha]
  · intro o st ho
    simp [drop_object, add_skip, ho]
  · intro t e' hwt hsct hwe b hb
    exact arr_next_after_drop_sib t e' hwt hsct hwe b hb
  · intro ky v ky2 v2 hk hwf hsc hns
    exact obj_next_after_kvdrop_sib ky v ky2 v2 hk hwf hsc hns

/-- Witness for C2's amended theorem: the drop of a fresh (not ended)
ParseArray handle enqueues Skip::Array on the empty queue. -/
theorem c2_deep_skip_amended_witness :
    (⟨false, false⟩ : ParseArray).ended = false
      ∧ (drop_array ⟨false, false⟩ ⟨[], []⟩).skips = [] ++ [Skip.array]
      ∧ wfT (JTree.arr (JList.cons JTree.null JList.nil)) = true
      ∧ skipCleanT (JTree.arr (JList.cons JTree.null JList.nil)) = true :=
  ⟨by decide,
   c2_deep_skip_amended.2.2.2.2.1 ⟨false, false⟩ ⟨[], []⟩ (by decide),
   by decide, by decide⟩
